import Mathlib

/-!
C-Image-Processor: bitmap codec and transform pipeline.

A shallow embedding of `src/main/main.cpp`.

* `int` is modelled by `Int`; the result of every `int` multiplication or
  addition that can leave the 32-bit range is passed through `wrap32`
  (two's complement wraparound).  `/` and `%` on `int` are `Int.tdiv` and
  `Int.tmod` (C++ truncates toward zero).
* `vector<vector<Pixel>>` is `List (List Pixel)`.  `image.size()` and
  `image[0].size()` are list lengths; the source stores them in an `int`, which is
  `wrap32` of the length.  `v[i][j]` is `Image.at`, an assignment
  `v[i][j] = p` is `Image.put`.  Indexing outside the vector is undefined
  behaviour in the source; the model reads the zero pixel and ignores the write.
* `vector<vector<Pixel>> v(n, vector<Pixel>(m))` with a negative `n` or `m`
  throws `std::length_error`; functions that can reach it return `Option`, and
  `none` stands for the uncaught exception.
* A `for (int i = 0; i < n; i++)` loop is `forLoop n body init`, a
  `for (int i = n - 1; i >= 0; i--)` loop is `forLoopDown n body init`.
* Files are lists of bytes: `read_image` takes the contents of the file it opens,
  `write_image` returns the bytes it writes once the output file is open.
-/

namespace ImageProcessor

/-- Pixel structure of the source: red, green, blue colour values, each an `int`. -/
structure Pixel where
  red : Int
  green : Int
  blue : Int
deriving DecidableEq

/-- An image: a vector of rows, each a vector of pixels. -/
abbrev Image := List (List Pixel)

/-- The value-initialised pixel that `vector<Pixel>(n)` is filled with. -/
def Pixel.zero : Pixel := ⟨0, 0, 0⟩

/-- Two's complement wraparound of a 32-bit `int`. -/
def wrap32 (x : Int) : Int := (x + 2147483648) % 4294967296 - 2147483648

/-- The counting loop `for (int i = 0; i < n; i++) state = body i state`. -/
def forLoop {σ : Type} (n : Nat) (body : Nat → σ → σ) (init : σ) : σ :=
  (List.range n).foldl (fun s i => body i s) init

/-- The vector `vector<vector<Pixel>>(rows, vector<Pixel>(cols))`. -/
def mkImage (rows cols : Nat) : Image :=
  List.replicate rows (List.replicate cols Pixel.zero)

/-- The element `image[r][c]`. -/
def Image.at (img : Image) (r c : Nat) : Pixel :=
  (img.getD r []).getD c Pixel.zero

/-- The assignment `image[r][c] = p`. -/
def Image.put (img : Image) (r c : Nat) (p : Pixel) : Image :=
  img.set r ((img.getD r []).set c p)

/-- The value of `image[0].size()`. -/
def Image.width (img : Image) : Nat := (img.getD 0 []).length

/-- A rectangular image of `h` rows, each of `w` pixels. -/
def Image.Rect (img : Image) (h w : Nat) : Prop :=
  img.length = h ∧ ∀ row ∈ img, row.length = w

instance (img : Image) (h w : Nat) : Decidable (img.Rect h w) := by
  unfold Image.Rect; infer_instance

/-- Every channel of every pixel lies in `[0, 255]`. -/
def Image.InRange (img : Image) : Prop :=
  ∀ row ∈ img, ∀ p ∈ row, (0 ≤ p.red ∧ p.red ≤ 255) ∧ (0 ≤ p.green ∧ p.green ≤ 255) ∧
    (0 ≤ p.blue ∧ p.blue ≤ 255)

instance (img : Image) : Decidable img.InRange := by
  unfold Image.InRange; infer_instance

/-! ## Transforms -/

/-- Source `process_4`: rotate by 90 degrees. -/
def process_4 (image : Image) : Option Image :=
  let num_rows := wrap32 (image.length : Int)
  let num_columns := wrap32 (image.width : Int)
  if num_rows < 0 ∨ num_columns < 0 then none
  else
    let new_image := mkImage num_columns.toNat num_rows.toNat
    some (forLoop num_rows.toNat (fun row acc =>
      forLoop num_columns.toNat (fun col acc =>
        let new_row := col
        let new_column := num_rows.toNat - 1 - row
        acc.put new_row new_column (image.at row col)) acc) new_image)

/-- Source `process_5`: rotate by `number` multiples of 90 degrees.  A nested call
`process_4(process_4(image))` runs the inner call first; an exception of either call leaves
the function. -/
def process_5 (image : Image) (number : Int) : Option Image :=
  let angle := wrap32 (number * 90)
  if angle.tmod 90 ≠ 0 then some image
  else if angle.tmod 360 = 0 then some image
  else if angle.tmod 360 = 90 then process_4 image
  else if angle.tmod 360 = 180 then (process_4 image).bind process_4
  else ((process_4 image).bind process_4).bind process_4

/-- The value `angle` of `process_5`: the `int` product `number*90`. -/
def process_5_angle (number : Int) : Int := wrap32 (number * 90)

/-- Source `process_6`: enlarge by `x_scale` horizontally and `y_scale` vertically. -/
def process_6 (image : Image) (x_scale y_scale : Int) : Option Image :=
  let original_height : Int := wrap32 (image.length : Int)
  let original_width : Int := wrap32 (image.width : Int)
  let newheight := wrap32 (original_height * y_scale)
  let newwidth := wrap32 (original_width * x_scale)
  if newheight < 0 ∨ newwidth < 0 then none
  else
    let new_image := mkImage newheight.toNat newwidth.toNat
    some (forLoop newheight.toNat (fun row acc =>
      forLoop newwidth.toNat (fun col acc =>
        let originalRow := Int.tdiv row y_scale
        let originalCol := Int.tdiv col x_scale
        acc.put row col (image.at originalRow.toNat originalCol.toNat)) acc) new_image)

/-! ## Per-pixel transforms

The transforms below write `new_image[row][col]` from `image[row][col]` for every
position.  The three assignments to the fields of `new_image[row][col]` are one `Image.put`
of the pixel a `process_N_pixel` function builds.

`double` values are modelled by the rationals they denote.  A floating-point operation
returns the exact result rounded to a `double`; the rounding is the field `rnd` of a
`FloatEnv`, and `sqrt` is its field `sqrt`.  The conversion of a `double` to `int` is
`double_to_int`, truncation toward zero; when the truncated value is not in the range of
`int` the conversion is undefined in C++, and the model returns `-2^31`, what the
conversion instruction of x86-64 returns.  Overflow to infinity and NaN are not modelled.

The sizes `num_rows` and `num_columns` are `int`; `new_image` is built from them, and a
negative size throws `std::length_error`: the transforms return `Option`. -/

/-- The floating-point environment: the rounding of an exact result to the nearest `double`
and the function `sqrt` of `<cmath>`. -/
structure FloatEnv where
  rnd : ℚ → ℚ
  sqrt : ℚ → ℚ

/-- What IEEE 754 guarantees and the proofs use: an integer of magnitude at most `2^53` is
a `double` and is not changed by rounding, and `sqrt` is exact on the square of a natural
number up to `2^26`. -/
def FloatEnv.Sound (env : FloatEnv) : Prop :=
  (∀ n : Int, -9007199254740992 ≤ n → n ≤ 9007199254740992 → env.rnd (n : ℚ) = (n : ℚ)) ∧
  (∀ n : Nat, n ≤ 67108864 → env.sqrt ((n * n : Nat) : ℚ) = (n : ℚ))

/-- The environment without rounding; its `sqrt` is the integer square root of the integer
part. -/
def exactEnv : FloatEnv where
  rnd := fun q => q
  sqrt := fun q => ((Nat.sqrt (Int.toNat (Int.floor q)) : Nat) : ℚ)

/-- Truncation of a rational number toward zero. -/
def truncate (q : ℚ) : Int := Int.tdiv q.num (q.den : Int)

/-- Conversion of a `double` to `int`: truncation toward zero, and `-2^31` when the
truncated value is not in the range of `int`. -/
def double_to_int (q : ℚ) : Int :=
  if -2147483648 ≤ truncate q ∧ truncate q ≤ 2147483647 then truncate q else -2147483648

/-- The body of the loops of `process_1` (vignette) for the pixel `p` at `(row, col)`. -/
def process_1_pixel (env : FloatEnv) (num_rows num_columns : Int) (row col : Nat)
    (p : Pixel) : Pixel :=
  let dr : Int := wrap32 ((row : Int) - Int.tdiv num_rows 2)
  let dc : Int := wrap32 ((col : Int) - Int.tdiv num_columns 2)
  let distance : Int := double_to_int
    (env.sqrt (env.rnd (env.rnd ((dr : ℚ) * (dr : ℚ)) + env.rnd ((dc : ℚ) * (dc : ℚ)))))
  let scaling_factor : ℚ :=
    env.rnd (((wrap32 (num_rows - distance) : Int) : ℚ) / (num_rows : ℚ))
  { red := double_to_int (env.rnd ((p.red : ℚ) * scaling_factor)),
    green := double_to_int (env.rnd ((p.green : ℚ) * scaling_factor)),
    blue := double_to_int (env.rnd ((p.blue : ℚ) * scaling_factor)) }

/-- Source `process_1`: vignette. -/
def process_1 (env : FloatEnv) (image : Image) : Option Image :=
  let num_rows := wrap32 (image.length : Int)
  let num_columns := wrap32 (image.width : Int)
  if num_rows < 0 ∨ num_columns < 0 then none
  else
    let new_image := mkImage num_rows.toNat num_columns.toNat
    some (forLoop num_rows.toNat (fun row acc =>
      forLoop num_columns.toNat (fun col acc =>
        acc.put row col (process_1_pixel env num_rows num_columns row col (image.at row col)))
        acc) new_image)

/-- The body of the loops of `process_2` (Clarendon) for the pixel `p`. -/
def process_2_pixel (env : FloatEnv) (scaling_factor : ℚ) (p : Pixel) : Pixel :=
  let red_val := p.red
  let green_val := p.green
  let blue_val := p.blue
  let avg : ℚ := ((Int.tdiv (wrap32 (wrap32 (red_val + green_val) + blue_val)) 3 : Int) : ℚ)
  if avg ≥ 170 then
    { red := double_to_int
        (env.rnd (255 - env.rnd (((wrap32 (255 - red_val) : Int) : ℚ) * scaling_factor))),
      green := double_to_int
        (env.rnd (255 - env.rnd (((wrap32 (255 - green_val) : Int) : ℚ) * scaling_factor))),
      blue := double_to_int
        (env.rnd (255 - env.rnd (((wrap32 (255 - blue_val) : Int) : ℚ) * scaling_factor))) }
  else if avg < 90 then
    { red := double_to_int (env.rnd ((red_val : ℚ) * scaling_factor)),
      green := double_to_int (env.rnd ((green_val : ℚ) * scaling_factor)),
      blue := double_to_int (env.rnd ((blue_val : ℚ) * scaling_factor)) }
  else { red := p.red, green := p.green, blue := p.blue }

/-- Source `process_2`: Clarendon. -/
def process_2 (env : FloatEnv) (image : Image) (scaling_factor : ℚ) : Option Image :=
  let num_rows := wrap32 (image.length : Int)
  let num_columns := wrap32 (image.width : Int)
  if num_rows < 0 ∨ num_columns < 0 then none
  else
    let new_image := mkImage num_rows.toNat num_columns.toNat
    some (forLoop num_rows.toNat (fun row acc =>
      forLoop num_columns.toNat (fun col acc =>
        acc.put row col (process_2_pixel env scaling_factor (image.at row col))) acc) new_image)

/-- The body of the loops of `process_3` (grayscale) for the pixel `p`. -/
def process_3_pixel (p : Pixel) : Pixel :=
  let red_val := p.red
  let green_val := p.green
  let blue_val := p.blue
  let gray_val := Int.tdiv (wrap32 (wrap32 (red_val + green_val) + blue_val)) 3
  { red := gray_val, green := gray_val, blue := gray_val }

/-- Source `process_3`: grayscale. -/
def process_3 (image : Image) : Option Image :=
  let num_rows := wrap32 (image.length : Int)
  let num_columns := wrap32 (image.width : Int)
  if num_rows < 0 ∨ num_columns < 0 then none
  else
    let new_image := mkImage num_rows.toNat num_columns.toNat
    some (forLoop num_rows.toNat (fun row acc =>
      forLoop num_columns.toNat (fun col acc =>
        acc.put row col (process_3_pixel (image.at row col))) acc) new_image)

/-- The body of the loops of `process_7` (high contrast) for the pixel `p`. -/
def process_7_pixel (p : Pixel) : Pixel :=
  let red_val := p.red
  let green_val := p.green
  let blue_val := p.blue
  let gray_val := Int.tdiv (wrap32 (wrap32 (red_val + green_val) + blue_val)) 3
  if gray_val ≥ Int.tdiv 255 2 then { red := 255, green := 255, blue := 255 }
  else { red := 0, green := 0, blue := 0 }

/-- Source `process_7`: high contrast. -/
def process_7 (image : Image) : Option Image :=
  let num_rows := wrap32 (image.length : Int)
  let num_columns := wrap32 (image.width : Int)
  if num_rows < 0 ∨ num_columns < 0 then none
  else
    let new_image := mkImage num_rows.toNat num_columns.toNat
    some (forLoop num_rows.toNat (fun row acc =>
      forLoop num_columns.toNat (fun col acc =>
        acc.put row col (process_7_pixel (image.at row col))) acc) new_image)

/-- The body of the loops of `process_8` (lighten) for the pixel `p`. -/
def process_8_pixel (env : FloatEnv) (scaling_factor : ℚ) (p : Pixel) : Pixel :=
  let red_val := p.red
  let green_val := p.green
  let blue_val := p.blue
  { red := double_to_int
      (env.rnd (255 - env.rnd (((wrap32 (255 - red_val) : Int) : ℚ) * scaling_factor))),
    green := double_to_int
      (env.rnd (255 - env.rnd (((wrap32 (255 - green_val) : Int) : ℚ) * scaling_factor))),
    blue := double_to_int
      (env.rnd (255 - env.rnd (((wrap32 (255 - blue_val) : Int) : ℚ) * scaling_factor))) }

/-- Source `process_8`: lighten by a scaling factor. -/
def process_8 (env : FloatEnv) (image : Image) (scaling_factor : ℚ) : Option Image :=
  let num_rows := wrap32 (image.length : Int)
  let num_columns := wrap32 (image.width : Int)
  if num_rows < 0 ∨ num_columns < 0 then none
  else
    let new_image := mkImage num_rows.toNat num_columns.toNat
    some (forLoop num_rows.toNat (fun row acc =>
      forLoop num_columns.toNat (fun col acc =>
        acc.put row col (process_8_pixel env scaling_factor (image.at row col))) acc) new_image)

/-- The body of the loops of `process_9` (darken) for the pixel `p`. -/
def process_9_pixel (env : FloatEnv) (scaling_factor : ℚ) (p : Pixel) : Pixel :=
  let red_val := p.red
  let green_val := p.green
  let blue_val := p.blue
  { red := double_to_int (env.rnd ((red_val : ℚ) * scaling_factor)),
    green := double_to_int (env.rnd ((green_val : ℚ) * scaling_factor)),
    blue := double_to_int (env.rnd ((blue_val : ℚ) * scaling_factor)) }

/-- Source `process_9`: darken by a scaling factor. -/
def process_9 (env : FloatEnv) (image : Image) (scaling_factor : ℚ) : Option Image :=
  let num_rows := wrap32 (image.length : Int)
  let num_columns := wrap32 (image.width : Int)
  if num_rows < 0 ∨ num_columns < 0 then none
  else
    let new_image := mkImage num_rows.toNat num_columns.toNat
    some (forLoop num_rows.toNat (fun row acc =>
      forLoop num_columns.toNat (fun col acc =>
        acc.put row col (process_9_pixel env scaling_factor (image.at row col))) acc) new_image)

/-- The body of the loops of `process_10` (black, white, red, green, blue) for the
pixel `p`. -/
def process_10_pixel (p : Pixel) : Pixel :=
  let red_val := p.red
  let green_val := p.green
  let blue_val := p.blue
  let max_color := max red_val (max green_val blue_val)
  if wrap32 (wrap32 (red_val + green_val) + blue_val) ≥ 550 then
    { red := 255, green := 255, blue := 255 }
  else if wrap32 (wrap32 (red_val + green_val) + blue_val) ≤ 150 then
    { red := 0, green := 0, blue := 0 }
  else if max_color = red_val then { red := 255, green := 0, blue := 0 }
  else if max_color = green_val then { red := 0, green := 255, blue := 0 }
  else { red := 0, green := 0, blue := 255 }

/-- Source `process_10`: black, white, red, green, blue. -/
def process_10 (image : Image) : Option Image :=
  let num_rows := wrap32 (image.length : Int)
  let num_columns := wrap32 (image.width : Int)
  if num_rows < 0 ∨ num_columns < 0 then none
  else
    let new_image := mkImage num_rows.toNat num_columns.toNat
    some (forLoop num_rows.toNat (fun row acc =>
      forLoop num_columns.toNat (fun col acc =>
        acc.put row col (process_10_pixel (image.at row col))) acc) new_image)

/-- The numbers `perform_image_processing` reads from `cin` when the selected transform
asks for them. -/
structure Inputs where
  scale : ℚ
  multiple : Int
  x_factor : Int
  y_factor : Int

/-- Source `perform_image_processing`.  `new_image` starts as the empty vector and is
assigned in the branch of the selected transform; the last branch only prints
"invalid input". -/
def perform_image_processing (env : FloatEnv) (image : Image) (selection : Int)
    (cin : Inputs) : Option Image :=
  let new_image : Image := []
  if selection = 1 then process_1 env image
  else if selection = 2 then process_2 env image cin.scale
  else if selection = 3 then process_3 image
  else if selection = 4 then process_4 image
  else if selection = 5 then process_5 image cin.multiple
  else if selection = 6 then process_6 image cin.x_factor cin.y_factor
  else if selection = 7 then process_7 image
  else if selection = 8 then process_8 env image cin.scale
  else if selection = 9 then process_9 env image cin.scale
  else if selection = 10 then process_10 image
  else some new_image

/-- The two images `main` keeps between menu selections. -/
structure MainState where
  image : Image
  modified_image : Image

/-- The part of the loop body of `main` that acts on a menu selection.  With selection 0 the
image `read` that `read_image` returned for the new file replaces `image`, and a second
selection is read; `perform_image_processing` is called only when the selection is in
`1..10`, and its result replaces `modified_image`. -/
def main_select (env : FloatEnv) (st : MainState) (selection : Int) (read : Image)
    (second : Int) (cin : Inputs) : Option MainState :=
  if selection = 0 then
    if second ≥ 1 ∧ second ≤ 10 then
      (perform_image_processing env read second cin).map
        (fun m => { image := read, modified_image := m })
    else some { image := read, modified_image := st.modified_image }
  else if selection ≥ 1 ∧ selection ≤ 10 then
    (perform_image_processing env st.modified_image selection cin).map
      (fun m => { image := st.image, modified_image := m })
  else some st

/-! ## Bitmap codec

The input file is a list of bytes.  `FStream` is the part of a C++ `fstream` that
`read_image` uses: the file contents, the read position and the failure flag.  A
`get()` at or past the end of the file returns `EOF = -1` and sets the flag; a
`seekg` to a negative position sets the flag; once the flag is set every later
`seekg` is ignored and every later `get()` returns `-1` (the source never calls
`clear()`).
-/

/-- A byte of a file (`unsigned char`). -/
abbrev Byte := Fin 256

/-- Conversion of an `int` to `unsigned char`: the value modulo 256. -/
def toByte (x : Int) : Byte := Fin.ofNat (x % 256).toNat

/-- The state of an input `fstream` opened on a file. -/
structure FStream where
  data : List Byte
  pos : Nat
  fail : Bool

/-- The call `stream.seekg(off)`. -/
def FStream.seekg (s : FStream) (off : Int) : FStream :=
  if s.fail then s
  else if off < 0 then { s with fail := true }
  else { s with pos := off.toNat }

/-- The call `stream.seekg(off, ios::cur)`. -/
def FStream.seekgCur (s : FStream) (off : Int) : FStream :=
  if s.fail then s
  else if (s.pos : Int) + off < 0 then { s with fail := true }
  else { s with pos := ((s.pos : Int) + off).toNat }

/-- The call `stream.get()`: the next byte as an `int`, or `-1` at the end of the file. -/
def FStream.get (s : FStream) : Int × FStream :=
  if s.fail then (-1, s)
  else
    match s.data[s.pos]? with
    | some b => ((b.val : Int), { s with pos := s.pos + 1 })
    | none => (-1, { s with fail := true })

/-- The descending loop `for (int i = n - 1; i >= 0; i--) state = body i state`. -/
def forLoopDown {σ : Type} (n : Nat) (body : Nat → σ → σ) (init : σ) : σ :=
  (List.range n).foldr (fun i s => body i s) init

/-- Loop state of `get_int`: `result`, `base` and the stream. -/
structure GetIntState where
  result : Int
  base : Int
  stream : FStream

/-- Source `get_int`: the integer of `bytes` bytes stored little-endian at `offset`. -/
def get_int (stream : FStream) (offset : Int) (bytes : Nat) : Int × FStream :=
  let stream := stream.seekg offset
  let fin := forLoop bytes (fun _ (st : GetIntState) =>
    let c := st.stream.get
    { result := wrap32 (st.result + wrap32 (c.1 * st.base)),
      base := wrap32 (st.base * 256),
      stream := c.2 }) { result := 0, base := 1, stream := stream }
  (fin.result, fin.stream)

/-- The image properties `read_image` gets from the file, and the stream after reading them. -/
structure Header where
  file_size : Int
  start : Int
  width : Int
  height : Int
  bits_per_pixel : Int
  stream : FStream

/-- The first five statements of `read_image`. -/
def read_header (file : List Byte) : Header :=
  let stream : FStream := { data := file, pos := 0, fail := false }
  let r1 := get_int stream 2 4
  let r2 := get_int r1.2 10 4
  let r3 := get_int r2.2 18 4
  let r4 := get_int r3.2 22 4
  let r5 := get_int r4.2 28 2
  { file_size := r1.1, start := r2.1, width := r3.1, height := r4.1,
    bits_per_pixel := r5.1, stream := r5.2 }

/-- The value `scanline_size` of `read_image`. -/
def Header.scanline_size (hd : Header) : Int :=
  wrap32 (hd.width * Int.tdiv hd.bits_per_pixel 8)

/-- The value `padding` of `read_image`. -/
def Header.padding (hd : Header) : Int :=
  if Int.tmod hd.scanline_size 4 ≠ 0 then 4 - Int.tmod hd.scanline_size 4 else 0

/-- The right-hand side `start + (scanline_size + padding) * height` of the validity test. -/
def Header.expected_size (hd : Header) : Int :=
  wrap32 (hd.start + wrap32 (wrap32 (hd.scanline_size + hd.padding) * hd.height))

/-- Loop state of `read_image`: the image, `pos` and the stream. -/
structure ReadState where
  image : Image
  pos : Int
  stream : FStream

/-- The body of the column loop of `read_image` for row `i` and column `j`. -/
def read_pixel (hd : Header) (i j : Nat) (st : ReadState) : ReadState :=
  let stream := st.stream.seekg st.pos
  let b := stream.get
  let g := b.2.get
  let r := g.2.get
  { image := st.image.put i j { red := r.1, green := g.1, blue := b.1 },
    pos := wrap32 (st.pos + Int.tdiv hd.bits_per_pixel 8),
    stream := r.2 }

/-- The body of the row loop of `read_image` for row `i`. -/
def read_row (hd : Header) (i : Nat) (st : ReadState) : ReadState :=
  let st := forLoop hd.width.toNat (fun j st => read_pixel hd i j st) st
  { image := st.image,
    pos := wrap32 (st.pos + hd.padding),
    stream := st.stream.seekgCur hd.padding }

/-- Source `read_image`, on the contents of the file.  `some []` is the empty vector
returned for an invalid image, `none` the exception of a negative vector size. -/
def read_image (file : List Byte) : Option Image :=
  let hd := read_header file
  if hd.file_size ≠ hd.expected_size then some []
  else if hd.height < 0 ∨ hd.width < 0 then none
  else
    let image := mkImage hd.height.toNat hd.width.toNat
    let fin := forLoopDown hd.height.toNat (fun i st => read_row hd i st)
      { image := image, pos := hd.start, stream := hd.stream }
    some fin.image

/-- The loop state of `read_image` when its row loop ends: the image it returns, `pos`
and the stream. -/
def read_image_state (file : List Byte) : ReadState :=
  let hd := read_header file
  forLoopDown hd.height.toNat (fun i st => read_row hd i st)
    { image := mkImage hd.height.toNat hd.width.toNat, pos := hd.start, stream := hd.stream }

/-- Source `set_bytes`: byte `i` of the field is `(unsigned char)(value >> (i*8))`; the
shift of an `int` is the floor of the division by `2^(i*8)`. -/
def set_bytes (arr : List Byte) (offset bytes : Nat) (value : Int) : List Byte :=
  forLoop bytes (fun i arr => arr.set (offset + i) (toByte (value / 2 ^ (i * 8)))) arr

/-- The value `width_pixels` of `write_image`: `image[0].size()` as an `int`. -/
def width_pixels (image : Image) : Int := wrap32 (image.width : Int)

/-- The value `height_pixels` of `write_image`: `image.size()` as an `int`. -/
def height_pixels (image : Image) : Int := wrap32 (image.length : Int)

/-- The value `padding_bytes` of `write_image`. -/
def padding_bytes (image : Image) : Int :=
  Int.tmod (4 - Int.tmod (wrap32 (width_pixels image * 3)) 4) 4

/-- The final value of `width_bytes` in `write_image`. -/
def width_bytes (image : Image) : Int :=
  wrap32 (wrap32 (width_pixels image * 3) + padding_bytes image)

/-- The value `array_bytes` of `write_image`. -/
def array_bytes (image : Image) : Int :=
  wrap32 (width_bytes image * height_pixels image)

/-- The array `bmp_header` of `write_image` after its six `set_bytes` calls. -/
def bmp_header (image : Image) : List Byte :=
  let h := List.replicate 14 (0 : Byte)
  let h := set_bytes h 0 1 66
  let h := set_bytes h 1 1 77
  let h := set_bytes h 2 4 (wrap32 (wrap32 (14 + 40) + array_bytes image))
  let h := set_bytes h 6 2 0
  let h := set_bytes h 8 2 0
  set_bytes h 10 4 (wrap32 (14 + 40))

/-- The array `dib_header` of `write_image` after its eleven `set_bytes` calls. -/
def dib_header (image : Image) : List Byte :=
  let h := List.replicate 40 (0 : Byte)
  let h := set_bytes h 0 4 40
  let h := set_bytes h 4 4 (width_pixels image)
  let h := set_bytes h 8 4 (height_pixels image)
  let h := set_bytes h 12 2 1
  let h := set_bytes h 14 2 24
  let h := set_bytes h 16 4 0
  let h := set_bytes h 20 4 (array_bytes image)
  let h := set_bytes h 24 4 2835
  let h := set_bytes h 28 4 2835
  let h := set_bytes h 32 4 0
  set_bytes h 36 4 0

/-- The body of the column loop of `write_image`: write blue, green, red of `image[h][w]`. -/
def write_pixel (image : Image) (h w : Nat) (out : List Byte) : List Byte :=
  out ++ [toByte (image.at h w).blue, toByte (image.at h w).green, toByte (image.at h w).red]

/-- The body of the row loop of `write_image`: the pixels of row `h`, then
`padding_bytes` bytes of the zero array `padding`. -/
def write_row (image : Image) (h : Nat) (out : List Byte) : List Byte :=
  let out := forLoop (width_pixels image).toNat (fun w out => write_pixel image h w out) out
  out ++ List.take (padding_bytes image).toNat [(0 : Byte), 0, 0]

/-- Source `write_image`: the bytes written to the output file once it is open. -/
def write_image (image : Image) : List Byte :=
  let out := bmp_header image ++ dib_header image
  forLoopDown (height_pixels image).toNat (fun h out => write_row image h out) out

/-! ## Reading aids

Little-endian values of the bytes of a file, used to state what `get_int` returns. -/

/-- The byte of `file` at offset `i` as an `int` (0 when the file is shorter). -/
def byteAt (file : List Byte) (i : Nat) : Int := ((file.getD i 0).val : Int)

/-- The 4-byte little-endian value at offset `off`, as a 32-bit `int`. -/
def le32 (file : List Byte) (off : Nat) : Int :=
  wrap32 (byteAt file off + 256 * byteAt file (off + 1) + 65536 * byteAt file (off + 2) +
    16777216 * byteAt file (off + 3))

/-- The 2-byte little-endian value at offset `off`. -/
def le16 (file : List Byte) (off : Nat) : Int :=
  byteAt file off + 256 * byteAt file (off + 1)

/-- The pixel stored at offset `off`: blue, green, red in this order. -/
def pixelAt (file : List Byte) (off : Nat) : Pixel :=
  { red := byteAt file (off + 2), green := byteAt file (off + 1), blue := byteAt file off }

/-- The number of bytes that round a scan line of `s` bytes up to a multiple of 4. -/
def padOf (s : Nat) : Nat := (4 - s % 4) % 4

/-- The three bytes `write_image` writes for a pixel: blue, green, red. -/
def pixel_bytes (p : Pixel) : List Byte := [toByte p.blue, toByte p.green, toByte p.red]

/-- The bytes `write_image` writes for row `h`: the pixels of the row, then the padding. -/
def row_bytes (image : Image) (h : Nat) : List Byte :=
  (List.range (width_pixels image).toNat).flatMap (fun w => pixel_bytes (image.at h w)) ++
    List.take (padding_bytes image).toNat [(0 : Byte), 0, 0]

/-- The `n`-byte little-endian representation of `v`: byte `i` is `v / 256^i` modulo 256. -/
def le_bytes (n : Nat) (v : Nat) : List Byte :=
  (List.range n).map (fun i => (Fin.ofNat (v / 256 ^ i) : Byte))

/-- The number a little-endian byte sequence stands for. -/
def le_value (bs : List Byte) : Nat :=
  bs.foldr (fun b acc => b.val + 256 * acc) 0

/-- The row length in bytes of a bitmap of width `W`: `3W` rounded up to a multiple of 4. -/
def stride (W : Nat) : Nat := 3 * W + padOf (3 * W)

/-- The sum of the three channels of every pixel is in the range of a 32-bit `int`. -/
def Image.SumsFit (img : Image) : Prop :=
  ∀ row ∈ img, ∀ p ∈ row, -2147483648 ≤ p.red + p.green + p.blue ∧
    p.red + p.green + p.blue < 2147483648

instance (img : Image) : Decidable img.SumsFit := by
  unfold Image.SumsFit; infer_instance

/-- A 2-row, 3-column sample image. -/
def sample23 : Image :=
  [[⟨1, 2, 3⟩, ⟨4, 5, 6⟩, ⟨7, 8, 9⟩], [⟨10, 11, 12⟩, ⟨13, 14, 15⟩, ⟨16, 17, 18⟩]]

/-- A 2-row, 2-column sample image. -/
def sample22 : Image :=
  [[⟨10, 10, 10⟩, ⟨250, 250, 250⟩], [⟨80, 80, 80⟩, ⟨200, 50, 30⟩]]

/-- A 54-byte bitmap header declaring the given file size, width and height, with pixel
array offset 54 and 24 bits per pixel. -/
def sample_header (size width height : Nat) : List Byte :=
  [66, 77] ++ le_bytes 4 size ++ [0, 0, 0, 0] ++ le_bytes 4 54 ++ le_bytes 4 40 ++
    le_bytes 4 width ++ le_bytes 4 height ++ le_bytes 2 1 ++ le_bytes 2 24 ++
    List.replicate 24 0

/-- A 54-byte file whose header declares width 0 and height `0xFFFFFFFF`, that is `-1`. -/
def negative_height_file : List Byte := sample_header 54 0 4294967295

/-- A 54-byte file whose header declares a 1 by 1 image and 58 bytes, without the 4 bytes
of the pixel array. -/
def truncated_file : List Byte := sample_header 58 1 1

/-- A 54-byte file whose header declares a 1 by 1 image and 60 bytes instead of 58. -/
def mismatched_file : List Byte := sample_header 60 1 1

/-- A one-pixel image whose channels are `2^30`: their sum is not a 32-bit `int`. -/
def overflow_image : Image := [[⟨1073741824, 1073741824, 1073741824⟩]]

/-- A one-row image of four pixels: wider than tall. -/
def wide_row : Image := [[⟨100, 100, 100⟩, ⟨100, 100, 100⟩, ⟨100, 100, 100⟩, ⟨100, 100, 100⟩]]

/-- Some numbers for the prompts of `perform_image_processing`. -/
def sample_inputs : Inputs := { scale := 1, multiple := 1, x_factor := 1, y_factor := 1 }

/-- An image of one row of 1431655748 pixels: its pixel array has `2^32 - 52` bytes. -/
def wide_image : Image := [List.replicate 1431655748 Pixel.zero]

/-- A 54-byte file whose header declares 54 bytes and a bitmap of width 1 and height
`2^30`: the size of its pixel array, `4 * 2^30`, is 0 as a 32-bit `int`. -/
def tall_file : List Byte := sample_header 54 1 1073741824

/-- An image of one row of 715827883 pixels: three times its width is above `2^31`. -/
def wide_strip : Image := [List.replicate 715827883 Pixel.zero]

/-- A one-row image with channels below 0 and above 255. -/
def odd_channels : Image := [[⟨-1, 256, 300⟩, ⟨1000, -1000, 255⟩]]

/-- An image of one row of `2^31` pixels: its width is not a non-negative `int`. -/
def huge_row : Image := [List.replicate 2147483648 Pixel.zero]

/-- A one-pixel image whose pixel is dark. -/
def dark_pixel : Image := [[⟨1, 1, 1⟩]]

/-- An image of four rows of one pixel. -/
def four_rows : Image := [[⟨1, 2, 3⟩], [⟨4, 5, 6⟩], [⟨7, 8, 9⟩], [⟨10, 11, 12⟩]]

/-! ## Loops of writes into an image -/

theorem forLoop_zero {σ : Type} (body : Nat → σ → σ) (init : σ) :
    forLoop 0 body init = init := rfl

theorem forLoop_succ {σ : Type} (n : Nat) (body : Nat → σ → σ) (init : σ) :
    forLoop (n + 1) body init = body n (forLoop n body init) := by
  simp [forLoop, List.range_succ, List.foldl_append]

theorem mkImage_rect (h w : Nat) : (mkImage h w).Rect h w := by
  constructor
  · simp [mkImage]
  · intro row hrow
    simp only [mkImage, List.mem_replicate] at hrow
    simp [hrow.2]

theorem Image.put_rect {img : Image} {h w : Nat} (hr : img.Rect h w) (r c : Nat) (p : Pixel) :
    (img.put r c p).Rect h w := by
  obtain ⟨hl, hrows⟩ := hr
  refine ⟨by simp [Image.put, hl], ?_⟩
  intro row hrow
  by_cases hlt : r < img.length
  · rcases List.mem_or_eq_of_mem_set hrow with hmem | heq
    · exact hrows row hmem
    · subst heq
      rw [List.length_set, List.getD_eq_getElem _ _ hlt]
      exact hrows _ (List.getElem_mem hlt)
  · rw [Image.put, List.set_eq_of_length_le (Nat.le_of_not_lt hlt)] at hrow
    exact hrows row hrow

theorem Image.at_put (img : Image) (r c r' c' : Nat) (p : Pixel) :
    (img.put r c p).at r' c' =
      if r' = r ∧ c' = c ∧ r < img.length ∧ c < (img.getD r []).length then p
      else img.at r' c' := by
  simp only [Image.at, Image.put, List.getD_eq_getElem?_getD, List.getElem?_set]
  by_cases hr : r = r'
  · subst hr
    by_cases hlt : r < img.length
    · simp only [hlt, if_true, Option.getD_some, List.getElem?_set]
      by_cases hc : c = c'
      · subst hc
        by_cases hcl : c < (img[r]?.getD []).length
        · simp [hcl]
        · simp [hcl, List.getElem?_eq_none (Nat.le_of_not_lt hcl)]
      · have hc' : ¬ c' = c := fun h => hc h.symm
        simp [hc, hc']
    · simp [hlt, List.getElem?_eq_none (Nat.le_of_not_lt hlt)]
  · have hr' : ¬ r' = r := fun h => hr h.symm
    simp [hr, hr']

theorem Image.rect_getD {img : Image} {h w : Nat} (hr : img.Rect h w) {r : Nat} (hlt : r < h) :
    (img.getD r []).length = w := by
  obtain ⟨hl, hrows⟩ := hr
  have hlt' : r < img.length := by omega
  rw [List.getD_eq_getElem _ _ hlt']
  exact hrows _ (List.getElem_mem hlt')

theorem Image.rect_width {img : Image} {h w : Nat} (hr : img.Rect h w) (hpos : 0 < h) :
    img.width = w := Image.rect_getD hr hpos

/-- Two rectangular images of the same shape with the same pixels are equal. -/
theorem Image.ext_at {a b : Image} {h w : Nat} (ha : a.Rect h w) (hb : b.Rect h w)
    (hpx : ∀ r < h, ∀ c < w, a.at r c = b.at r c) : a = b := by
  apply List.ext_getElem (by rw [ha.1, hb.1])
  intro r h1 h2
  have hrh : r < h := by rw [← ha.1]; exact h1
  have hla : a[r].length = w := ha.2 _ (List.getElem_mem h1)
  have hlb : b[r].length = w := hb.2 _ (List.getElem_mem h2)
  apply List.ext_getElem (by rw [hla, hlb])
  intro c h3 h4
  have := hpx r hrh c (by omega)
  simpa [Image.at, List.getD_eq_getElem, h1, h2, h3, h4] using this

/-- A single loop of writes `acc[tr col][tc col] = val col` at pairwise distinct positions
inside a rectangular image. -/
theorem writeRow_spec (h w : Nat) (tr tc : Nat → Nat) (val : Nat → Pixel) (C : Nat) :
    ∀ (acc : Image), acc.Rect h w →
    (∀ col < C, tr col < h ∧ tc col < w) →
    (∀ col < C, ∀ col' < C, tr col = tr col' → tc col = tc col' → col = col') →
    (forLoop C (fun col a => a.put (tr col) (tc col) (val col)) acc).Rect h w ∧
    (∀ col < C, (forLoop C (fun col a => a.put (tr col) (tc col) (val col)) acc).at
        (tr col) (tc col) = val col) ∧
    (∀ r c, (∀ col < C, ¬ (tr col = r ∧ tc col = c)) →
      (forLoop C (fun col a => a.put (tr col) (tc col) (val col)) acc).at r c = acc.at r c) := by
  induction C with
  | zero =>
    intro acc hacc _ _
    exact ⟨hacc, fun col hcol => absurd hcol (Nat.not_lt_zero _), fun r c _ => rfl⟩
  | succ n ih =>
    intro acc hacc hin hinj
    obtain ⟨ihr, ihv, ihu⟩ := ih acc hacc (fun col hc => hin col (by omega))
      (fun col hc col' hc' => hinj col (by omega) col' (by omega))
    rw [forLoop_succ]
    have hbn := hin n (by omega)
    have hlen : (forLoop n (fun col a => a.put (tr col) (tc col) (val col)) acc).length = h :=
      ihr.1
    have hrow : ((forLoop n (fun col a => a.put (tr col) (tc col) (val col)) acc).getD
        (tr n) []).length = w := Image.rect_getD ihr hbn.1
    refine ⟨Image.put_rect ihr _ _ _, ?_, ?_⟩
    · intro col hcol
      rw [Image.at_put]
      by_cases hcn : col = n
      · subst hcn
        rw [if_pos ⟨rfl, rfl, by omega, by omega⟩]
      · rw [if_neg, ihv col (by omega)]
        rintro ⟨h1, h2, -, -⟩
        exact hcn (hinj col hcol n (by omega) h1 h2)
    · intro r c hun
      rw [Image.at_put, if_neg, ihu r c (fun col hc => hun col (by omega))]
      rintro ⟨h1, h2, -, -⟩
      exact hun n (by omega) ⟨h1.symm, h2.symm⟩

/-- The nested loop of writes `acc[tr row col][tc row col] = val row col` at pairwise
distinct positions inside a rectangular image. -/
theorem writeLoop_spec (h w C : Nat) (tr tc : Nat → Nat → Nat) (val : Nat → Nat → Pixel)
    (R : Nat) :
    ∀ (init : Image), init.Rect h w →
    (∀ row < R, ∀ col < C, tr row col < h ∧ tc row col < w) →
    (∀ row < R, ∀ col < C, ∀ row' < R, ∀ col' < C,
      tr row col = tr row' col' → tc row col = tc row' col' → row = row' ∧ col = col') →
    (forLoop R (fun row acc => forLoop C (fun col a =>
        a.put (tr row col) (tc row col) (val row col)) acc) init).Rect h w ∧
    (∀ row < R, ∀ col < C, (forLoop R (fun row acc => forLoop C (fun col a =>
        a.put (tr row col) (tc row col) (val row col)) acc) init).at
        (tr row col) (tc row col) = val row col) ∧
    (∀ r c, (∀ row < R, ∀ col < C, ¬ (tr row col = r ∧ tc row col = c)) →
      (forLoop R (fun row acc => forLoop C (fun col a =>
        a.put (tr row col) (tc row col) (val row col)) acc) init).at r c = init.at r c) := by
  induction R with
  | zero =>
    intro init hinit _ _
    exact ⟨hinit, fun row hrow => absurd hrow (Nat.not_lt_zero _), fun r c _ => rfl⟩
  | succ n ih =>
    intro init hinit hin hinj
    obtain ⟨ihr, ihv, ihu⟩ := ih init hinit (fun row hr => hin row (by omega))
      (fun row hr col hc row' hr' col' hc' => hinj row (by omega) col hc row' (by omega) col' hc')
    rw [forLoop_succ]
    obtain ⟨wr, wv, wu⟩ := writeRow_spec h w (tr n) (tc n) (val n) C _ ihr
      (fun col hc => hin n (by omega) col hc)
      (fun col hc col' hc' h1 h2 => (hinj n (by omega) col hc n (by omega) col' hc' h1 h2).2)
    refine ⟨wr, ?_, ?_⟩
    · intro row hrow col hcol
      by_cases hrn : row = n
      · subst hrn
        exact wv col hcol
      · rw [wu, ihv row (by omega) col hcol]
        rintro col' hc' ⟨h1, h2⟩
        exact hrn (hinj n (by omega) col' hc' row hrow col hcol h1 h2).1.symm
    · intro r c hun
      rw [wu r c (fun col hc => hun n (by omega) col hc)]
      exact ihu r c (fun row hr col hc => hun row (by omega) col hc)

/-! ## Sizes kept in an `int` -/

theorem wrap32_of_fits {x : Int} (hlo : -2147483648 ≤ x) (hhi : x < 2147483648) :
    wrap32 x = x := by
  unfold wrap32; omega

theorem wrap32_natCast {n : Nat} (h : n < 2147483648) : wrap32 (n : Int) = (n : Int) :=
  wrap32_of_fits (by omega) (by omega)

theorem wrap32_cong (x : Int) : ∃ q : Int, wrap32 x = x + 4294967296 * q :=
  ⟨-((x + 2147483648) / 4294967296), by unfold wrap32; omega⟩

theorem wrap32_add_mul (x k : Int) : wrap32 (x + 4294967296 * k) = wrap32 x := by
  unfold wrap32
  have e : x + 4294967296 * k + 2147483648 = (x + 2147483648) + 4294967296 * k := by ring
  rw [e, Int.add_mul_emod_self_left]

theorem wrap32_mul_left (a b : Int) : wrap32 (wrap32 a * b) = wrap32 (a * b) := by
  obtain ⟨q, hq⟩ := wrap32_cong a
  have e : (a + 4294967296 * q) * b = a * b + 4294967296 * (q * b) := by ring
  rw [hq, e, wrap32_add_mul]

theorem huge_row_rect : huge_row.Rect 1 2147483648 := by
  refine ⟨rfl, ?_⟩
  intro row hrow
  simp only [huge_row, List.mem_singleton] at hrow
  rw [hrow, List.length_replicate]

/-- The width of `huge_row`, kept in an `int`, is negative. -/
theorem huge_row_width : wrap32 (huge_row.width : Int) < 0 := by
  rw [Image.rect_width huge_row_rect (by decide)]
  decide

/-! ## Rotation -/

theorem tdiv_natCast_toNat (a b : Nat) : (Int.tdiv (a : Int) (b : Int)).toNat = a / b := by
  rw [Int.tdiv_eq_ediv (by omega) (by omega)]
  norm_cast

theorem process_6_shape {img : Image} {H W : Nat} (hrect : img.Rect H W) (hH : 0 < H)
    (x y : Nat) (hfH : H * y < 2147483648) (hfW : W * x < 2147483648) :
    ∃ out, process_6 img (x : Int) (y : Int) = some out ∧ out.Rect (H * y) (W * x) ∧
      ∀ row < H * y, ∀ col < W * x, out.at row col = img.at (row / y) (col / x) := by
  have hw : img.width = W := Image.rect_width hrect hH
  have hl : img.length = H := hrect.1
  have e1 : wrap32 (wrap32 (H : Int) * (y : Int)) = ((H * y : Nat) : Int) := by
    rw [wrap32_mul_left, wrap32_of_fits] <;> push_cast <;> nlinarith
  have e2 : wrap32 (wrap32 (W : Int) * (x : Int)) = ((W * x : Nat) : Int) := by
    rw [wrap32_mul_left, wrap32_of_fits] <;> push_cast <;> nlinarith
  obtain ⟨h1, h2, -⟩ := writeLoop_spec (H * y) (W * x) (W * x) (fun row _ => row)
    (fun _ col => col)
    (fun row col => img.at (Int.tdiv (row : Int) (y : Int)).toNat
      (Int.tdiv (col : Int) (x : Int)).toNat) (H * y) (mkImage (H * y) (W * x))
    (mkImage_rect _ _) (fun row hr col hc => ⟨hr, hc⟩)
    (fun row hr col hc row' hr' col' hc' e1 e2 => ⟨e1, e2⟩)
  refine ⟨_, ?_, h1, ?_⟩
  · simp only [process_6, hw, hl, e1, e2, Int.toNat_ofNat]
    rw [if_neg (by omega)]
  · intro row hr col hc
    rw [h2 row hr col hc, tdiv_natCast_toNat, tdiv_natCast_toNat]

/-! ## Claims on the geometric transforms -/

/-- C9: at `N = -2` the angle is `-180`, its C++ remainder modulo 360 is `-180`, and
`process_5` falls into the last branch: three quarter turns, not the two of `N = 2`. -/
theorem process_5_minus_two :
    process_5 [[⟨1, 2, 3⟩, ⟨4, 5, 6⟩]] (-2) =
        ((process_4 [[⟨1, 2, 3⟩, ⟨4, 5, 6⟩]]).bind process_4).bind process_4 ∧
      process_5 [[⟨1, 2, 3⟩, ⟨4, 5, 6⟩]] (-2) = some [[⟨4, 5, 6⟩], [⟨1, 2, 3⟩]] ∧
      process_5 [[⟨1, 2, 3⟩, ⟨4, 5, 6⟩]] 2 = some [[⟨4, 5, 6⟩, ⟨1, 2, 3⟩]] := by
  decide

/-- C10 as stated fails: for a 2 by 1 image and `y_scale = 2^30` the product of height and
scale leaves the 32-bit range, the vector size is negative and no image is returned. -/
theorem process_6_overflow :
    ¬ ∃ out, process_6 [[Pixel.zero], [Pixel.zero]] 1 1073741824 = some out ∧
      out.Rect (2 * 1073741824) (1 * 1) := by
  rintro ⟨out, h, -⟩
  have hnone : process_6 [[Pixel.zero], [Pixel.zero]] 1 1073741824 = none := by decide
  rw [hnone] at h
  cases h

/-- C10, amended: for a rectangular image of `H ≥ 1` rows and `W` columns and positive scales
with `H * y_scale` and `W * x_scale` below `2^31`, `process_6` returns an image of
`H * y_scale` rows and `W * x_scale` columns whose pixel at `(row, col)` is the input pixel
at `(row / y_scale, col / x_scale)`. -/
theorem process_6_enlarges (img : Image) (H W : Nat) (x_scale y_scale : Nat)
    (hrect : img.Rect H W) (hH : 0 < H) (_hx : 0 < x_scale) (_hy : 0 < y_scale)
    (hfH : H * y_scale < 2147483648) (hfW : W * x_scale < 2147483648) :
    ∃ out, process_6 img (x_scale : Int) (y_scale : Int) = some out ∧
      out.Rect (H * y_scale) (W * x_scale) ∧
      ∀ row < H * y_scale, ∀ col < W * x_scale,
        out.at row col = img.at (row / y_scale) (col / x_scale) :=
  process_6_shape hrect hH x_scale y_scale hfH hfW

theorem process_6_enlarges_witness :
    sample22.Rect 2 2 ∧
    ∃ out, process_6 sample22 ((2 : Nat) : Int) ((3 : Nat) : Int) = some out ∧
      out.Rect (2 * 3) (2 * 2) ∧
      ∀ row < 2 * 3, ∀ col < 2 * 2, out.at row col = sample22.at (row / 3) (col / 2) :=
  ⟨by decide, process_6_enlarges sample22 2 2 2 3 (by decide) (by decide) (by decide)
    (by decide) (by decide) (by decide)⟩

/-! ## Reading integers from the stream -/

theorem wrap32_range (x : Int) : -2147483648 ≤ wrap32 x ∧ wrap32 x < 2147483648 := by
  unfold wrap32; omega

theorem FStream.seekg_ok (d : List Byte) (p : Nat) (off : Nat) :
    FStream.seekg { data := d, pos := p, fail := false } (off : Int) =
      { data := d, pos := off, fail := false } := by
  simp [FStream.seekg]

theorem FStream.get_ok (d : List Byte) (p : Nat) {b : Byte} (h : d[p]? = some b) :
    FStream.get { data := d, pos := p, fail := false } =
      ((b.val : Int), { data := d, pos := p + 1, fail := false }) := by
  simp [FStream.get, h]

theorem wrap32_add_wrap32 (a b : Int) : wrap32 (a + wrap32 b) = wrap32 (a + b) := by
  unfold wrap32; omega

theorem get_int_four (d : List Byte) (p : Nat) (off : Nat) {b0 b1 b2 b3 : Byte}
    (h0 : d[off]? = some b0) (h1 : d[off + 1]? = some b1)
    (h2 : d[off + 2]? = some b2) (h3 : d[off + 3]? = some b3) :
    get_int { data := d, pos := p, fail := false } (off : Int) 4 =
      (wrap32 ((b0.val : Int) + 256 * b1.val + 65536 * b2.val + 16777216 * b3.val),
        { data := d, pos := off + 4, fail := false }) := by
  have e0 := b0.isLt
  have e1 := b1.isLt
  have e2 := b2.isLt
  have e3 := b3.isLt
  simp only [get_int, forLoop_succ, forLoop_zero]
  rw [FStream.seekg_ok, FStream.get_ok d off h0]
  simp only []
  rw [FStream.get_ok d (off + 1) h1]
  simp only []
  rw [FStream.get_ok d (off + 1 + 1) h2]
  simp only []
  rw [FStream.get_ok d (off + 1 + 1 + 1) h3]
  have hb1 : wrap32 (1 * 256) = 256 := by decide
  have hb2 : wrap32 (256 * 256) = 65536 := by decide
  have hb3 : wrap32 (65536 * 256) = 16777216 := by decide
  simp only [Prod.mk.injEq, and_true, hb1, hb2, hb3]
  rw [wrap32_of_fits (x := (b0.val : Int) * 1) (by omega) (by omega),
    wrap32_of_fits (x := 0 + (b0.val : Int) * 1) (by omega) (by omega),
    wrap32_of_fits (x := (b1.val : Int) * 256) (by omega) (by omega),
    wrap32_of_fits (x := 0 + (b0.val : Int) * 1 + (b1.val : Int) * 256) (by omega) (by omega),
    wrap32_of_fits (x := (b2.val : Int) * 65536) (by omega) (by omega),
    wrap32_of_fits (x := 0 + (b0.val : Int) * 1 + (b1.val : Int) * 256 + (b2.val : Int) * 65536)
      (by omega) (by omega),
    wrap32_add_wrap32]
  congr 1
  omega

theorem get_int_two (d : List Byte) (p : Nat) (off : Nat) {b0 b1 : Byte}
    (h0 : d[off]? = some b0) (h1 : d[off + 1]? = some b1) :
    get_int { data := d, pos := p, fail := false } (off : Int) 2 =
      ((b0.val : Int) + 256 * b1.val, { data := d, pos := off + 2, fail := false }) := by
  have e0 := b0.isLt
  have e1 := b1.isLt
  simp only [get_int, forLoop_succ, forLoop_zero]
  rw [FStream.seekg_ok, FStream.get_ok d off h0]
  simp only []
  rw [FStream.get_ok d (off + 1) h1]
  have hb1 : wrap32 (1 * 256) = 256 := by decide
  simp only [Prod.mk.injEq, and_true, hb1]
  rw [wrap32_of_fits (x := (b0.val : Int) * 1) (by omega) (by omega),
    wrap32_of_fits (x := 0 + (b0.val : Int) * 1) (by omega) (by omega),
    wrap32_of_fits (x := (b1.val : Int) * 256) (by omega) (by omega),
    wrap32_of_fits (x := 0 + (b0.val : Int) * 1 + (b1.val : Int) * 256) (by omega) (by omega)]
  omega

theorem getElem?_eq_some_getD (file : List Byte) {i : Nat} (h : i < file.length) :
    file[i]? = some (file.getD i 0) := by
  rw [List.getD_eq_getElem _ _ h, List.getElem?_eq_getElem h]

theorem get_int_le32 (file : List Byte) (p off : Nat) (h : off + 4 ≤ file.length) :
    get_int { data := file, pos := p, fail := false } (off : Int) 4 =
      (le32 file off, { data := file, pos := off + 4, fail := false }) :=
  get_int_four file p off (getElem?_eq_some_getD file (by omega))
    (getElem?_eq_some_getD file (by omega)) (getElem?_eq_some_getD file (by omega))
    (getElem?_eq_some_getD file (by omega))

theorem get_int_le16 (file : List Byte) (p off : Nat) (h : off + 2 ≤ file.length) :
    get_int { data := file, pos := p, fail := false } (off : Int) 2 =
      (le16 file off, { data := file, pos := off + 2, fail := false }) :=
  get_int_two file p off (getElem?_eq_some_getD file (by omega))
    (getElem?_eq_some_getD file (by omega))

/-- The header of a file of at least 30 bytes: every field is the little-endian value at
its offset, and the stream has not failed. -/
theorem read_header_of_length (file : List Byte) (h : 30 ≤ file.length) :
    read_header file =
      { file_size := le32 file 2, start := le32 file 10, width := le32 file 18,
        height := le32 file 22, bits_per_pixel := le16 file 28,
        stream := { data := file, pos := 30, fail := false } } := by
  have h1 := get_int_le32 file 0 2 (by omega)
  have h2 := get_int_le32 file (2 + 4) 10 (by omega)
  have h3 := get_int_le32 file (10 + 4) 18 (by omega)
  have h4 := get_int_le32 file (18 + 4) 22 (by omega)
  have h5 := get_int_le16 file (22 + 4) 28 (by omega)
  simp only [Nat.cast_ofNat] at h1 h2 h3 h4 h5
  simp only [read_header, h1, h2, h3, h4, h5]

/-- When the file has fewer than 30 bytes the second `get()` of the bits-per-pixel field
returns `-1`, and the field is negative. -/
theorem get_int_28_short (s : FStream) (h : s.data.length < 30) : (get_int s 28 2).1 < 0 := by
  obtain ⟨d, p, f⟩ := s
  simp only at h
  have hb1 : wrap32 (1 * 256) = 256 := by decide
  have h29 : d[29]? = none := List.getElem?_eq_none (by omega)
  simp only [get_int, forLoop_succ, forLoop_zero, hb1]
  cases f
  · cases h28 : d[28]? with
    | none =>
      simp [FStream.seekg, FStream.get, h28]
      decide
    | some b =>
      have hb := b.isLt
      simp [FStream.seekg, FStream.get, h28, h29]
      have hw : wrap32 (b.val : Int) = b.val := wrap32_of_fits (by omega) (by omega)
      have hm : wrap32 (-256) = -256 := by decide
      simp only [hw, hm]
      unfold wrap32
      omega
  · simp [FStream.seekg, FStream.get]
    decide

theorem forLoop_inv {σ : Type} (P : σ → Prop) (n : Nat) (body : Nat → σ → σ) (init : σ)
    (h0 : P init) (hs : ∀ i s, P s → P (body i s)) : P (forLoop n body init) := by
  induction n with
  | zero => exact h0
  | succ n ih => rw [forLoop_succ]; exact hs _ _ ih

theorem forLoopDown_zero {σ : Type} (body : Nat → σ → σ) (init : σ) :
    forLoopDown 0 body init = init := rfl

theorem forLoopDown_succ {σ : Type} (n : Nat) (body : Nat → σ → σ) (init : σ) :
    forLoopDown (n + 1) body init = forLoopDown n body (body n init) := by
  simp [forLoopDown, List.range_succ, List.foldr_append]

theorem forLoopDown_inv {σ : Type} (P : σ → Prop) (n : Nat) (body : Nat → σ → σ) :
    ∀ (init : σ), P init → (∀ i s, P s → P (body i s)) → P (forLoopDown n body init) := by
  induction n with
  | zero => intro init h0 _; exact h0
  | succ n ih =>
    intro init h0 hs
    rw [forLoopDown_succ]
    exact ih _ (hs _ _ h0) hs

theorem FStream.seekg_data (s : FStream) (off : Int) : (s.seekg off).data = s.data := by
  unfold FStream.seekg; split_ifs <;> rfl

theorem FStream.get_data (s : FStream) : s.get.2.data = s.data := by
  unfold FStream.get
  split_ifs
  · rfl
  · split <;> rfl

theorem get_int_data (s : FStream) (off : Int) (n : Nat) : (get_int s off n).2.data = s.data := by
  unfold get_int
  simp only
  refine forLoop_inv (fun st : GetIntState => st.stream.data = s.data) n _ _ ?_ ?_
  · exact FStream.seekg_data s off
  · intro i st hst
    simp only [FStream.get_data, hst]

/-- A non-negative bits-per-pixel field was read in full: the file has at least 30 bytes. -/
theorem length_of_bits_per_pixel (file : List Byte)
    (h : 0 ≤ (read_header file).bits_per_pixel) : 30 ≤ file.length := by
  by_contra hlt
  have hshort := get_int_28_short
    (get_int (get_int (get_int (get_int { data := file, pos := 0, fail := false } 2 4).2
      10 4).2 18 4).2 22 4).2
    (by simp only [get_int_data]; omega)
  simp only [read_header] at h
  omega

theorem read_pixel_ok (hd : Header) (file : List Byte) (i j : Nat) (st : ReadState)
    (q p k : Nat) (hs : st.stream = { data := file, pos := q, fail := false })
    (hp : st.pos = (p : Int)) (hk : Int.tdiv hd.bits_per_pixel 8 = (k : Int))
    (hlen : p + 2 < file.length) (hfit : p + k < 2147483648) :
    read_pixel hd i j st =
      { image := st.image.put i j (pixelAt file p), pos := ((p + k : Nat) : Int),
        stream := { data := file, pos := p + 3, fail := false } } := by
  unfold read_pixel
  simp only [hs, hp, hk]
  rw [FStream.seekg_ok, FStream.get_ok file p (getElem?_eq_some_getD file (by omega))]
  simp only []
  rw [FStream.get_ok file (p + 1) (getElem?_eq_some_getD file (by omega))]
  simp only []
  rw [FStream.get_ok file (p + 1 + 1) (getElem?_eq_some_getD file (by omega))]
  simp only []
  rw [wrap32_of_fits (by omega) (by omega)]
  simp only [pixelAt, byteAt, Nat.cast_add]

/-- The column loop of `read_image` on row `i`, when all its reads are inside the file. -/
theorem read_cols_ok (hd : Header) (file : List Byte) (i h w k p : Nat) (st : ReadState)
    (q : Nat) (hs : st.stream = { data := file, pos := q, fail := false })
    (hp : st.pos = (p : Int)) (hk : Int.tdiv hd.bits_per_pixel 8 = (k : Int)) (hk3 : 3 ≤ k)
    (hrect : st.image.Rect h w) (hi : i < h) (n : Nat) :
    n ≤ w → p + n * k ≤ file.length → p + n * k < 2147483648 →
    (∃ q', (forLoop n (fun j st => read_pixel hd i j st) st).stream =
        { data := file, pos := q', fail := false }) ∧
    (forLoop n (fun j st => read_pixel hd i j st) st).pos = ((p + n * k : Nat) : Int) ∧
    (forLoop n (fun j st => read_pixel hd i j st) st).image.Rect h w ∧
    (∀ j < n, (forLoop n (fun j st => read_pixel hd i j st) st).image.at i j =
        pixelAt file (p + j * k)) ∧
    (∀ i' j', i' ≠ i →
      (forLoop n (fun j st => read_pixel hd i j st) st).image.at i' j' = st.image.at i' j') := by
  induction n with
  | zero =>
    intro _ _ _
    exact ⟨⟨q, hs⟩, by simpa using hp, hrect, fun j hj => absurd hj (Nat.not_lt_zero _),
      fun _ _ _ => rfl⟩
  | succ n ih =>
    intro hnw hlen hfit
    have hmul : (n + 1) * k = n * k + k := Nat.succ_mul n k
    obtain ⟨⟨q', hs'⟩, hp', hr', hv, hu⟩ := ih (by omega) (by omega) (by omega)
    rw [forLoop_succ]
    rw [read_pixel_ok hd file i n _ q' (p + n * k) k hs' hp' hk (by omega) (by omega)]
    refine ⟨⟨_, rfl⟩, by simp only [hmul, Nat.add_assoc], Image.put_rect hr' _ _ _, ?_, ?_⟩
    · intro j hj
      dsimp only
      rw [Image.at_put]
      by_cases hjn : j = n
      · subst hjn
        rw [if_pos ⟨rfl, rfl, by rw [hr'.1]; exact hi, by rw [Image.rect_getD hr' hi]; omega⟩]
      · rw [if_neg (fun hc => hjn hc.2.1)]
        exact hv j (by omega)
    · intro i' j' hne
      dsimp only
      rw [Image.at_put, if_neg (fun hc => hne hc.1)]
      exact hu i' j' hne

theorem FStream.seekgCur_ok (d : List Byte) (q pad : Nat) :
    FStream.seekgCur { data := d, pos := q, fail := false } (pad : Int) =
      { data := d, pos := q + pad, fail := false } := by
  simp only [FStream.seekgCur, Bool.false_eq_true, if_false]
  rw [if_neg (by omega)]
  congr 1

/-- The row loop body of `read_image` on row `i`, when all its reads are inside the file. -/
theorem read_row_ok (hd : Header) (file : List Byte) (i h w k pad p : Nat) (st : ReadState)
    (q : Nat) (hs : st.stream = { data := file, pos := q, fail := false })
    (hp : st.pos = (p : Int)) (hk : Int.tdiv hd.bits_per_pixel 8 = (k : Int)) (hk3 : 3 ≤ k)
    (hw : hd.width.toNat = w) (hpad : hd.padding = (pad : Int))
    (hrect : st.image.Rect h w) (hi : i < h)
    (hlen : p + w * k ≤ file.length) (hfit : p + w * k + pad < 2147483648) :
    (∃ q', (read_row hd i st).stream = { data := file, pos := q', fail := false }) ∧
    (read_row hd i st).pos = ((p + (w * k + pad) : Nat) : Int) ∧
    (read_row hd i st).image.Rect h w ∧
    (∀ j < w, (read_row hd i st).image.at i j = pixelAt file (p + j * k)) ∧
    (∀ i' j', i' ≠ i → (read_row hd i st).image.at i' j' = st.image.at i' j') := by
  obtain ⟨⟨q', hs'⟩, hp', hr', hv, hu⟩ :=
    read_cols_ok hd file i h w k p st q hs hp hk hk3 hrect hi w (Nat.le_refl _) hlen (by omega)
  unfold read_row
  simp only [hw, hs', hp', hpad]
  refine ⟨⟨q' + pad, FStream.seekgCur_ok _ _ _⟩, ?_, hr', hv, hu⟩
  rw [wrap32_of_fits (by omega) (by omega)]
  push_cast
  omega

/-- The row loop of `read_image`, when the pixel array lies inside the file and its end
offset is below `2^31`. -/
theorem read_rows_ok (hd : Header) (file : List Byte) (h w k pad start : Nat)
    (hk : Int.tdiv hd.bits_per_pixel 8 = (k : Int)) (hk3 : 3 ≤ k)
    (hw : hd.width.toNat = w) (hpad : hd.padding = (pad : Int))
    (hlen : start + h * (w * k + pad) ≤ file.length)
    (hfit : start + h * (w * k + pad) < 2147483648) (n : Nat) :
    n ≤ h → ∀ (st : ReadState) (q : Nat),
    st.stream = { data := file, pos := q, fail := false } →
    st.pos = ((start + (h - n) * (w * k + pad) : Nat) : Int) →
    st.image.Rect h w →
    (∀ i, n ≤ i → i < h → ∀ j < w,
      st.image.at i j = pixelAt file (start + (h - 1 - i) * (w * k + pad) + j * k)) →
    (forLoopDown n (fun i st => read_row hd i st) st).image.Rect h w ∧
    ∀ i < h, ∀ j < w, (forLoopDown n (fun i st => read_row hd i st) st).image.at i j =
      pixelAt file (start + (h - 1 - i) * (w * k + pad) + j * k) := by
  induction n with
  | zero =>
    intro _ st q _ _ hrect hpx
    exact ⟨hrect, fun i hi j hj => hpx i (Nat.zero_le _) hi j hj⟩
  | succ n ih =>
    intro hn st q hs hp hrect hpx
    rw [forLoopDown_succ]
    have e1 : h - (n + 1) = h - 1 - n := by omega
    have e2 : (h - n) * (w * k + pad) = (h - 1 - n) * (w * k + pad) + (w * k + pad) := by
      have : h - n = (h - 1 - n) + 1 := by omega
      rw [this, Nat.succ_mul]
    have e3 : (h - n) * (w * k + pad) ≤ h * (w * k + pad) :=
      Nat.mul_le_mul_right _ (by omega)
    rw [e1] at hp
    obtain ⟨⟨q', hs'⟩, hp', hr', hv, hu⟩ :=
      read_row_ok hd file n h w k pad (start + (h - 1 - n) * (w * k + pad)) st q hs hp hk hk3
        hw hpad hrect (by omega) (by omega) (by omega)
    refine ih (by omega) _ q' hs' ?_ hr' ?_
    · rw [hp', e2, Nat.add_assoc]
    · intro i hni hih j hj
      by_cases hin : i = n
      · subst hin
        exact hv j hj
      · rw [hu i j hin]
        exact hpx i (by omega) hih j hj

theorem nonneg_of_tdiv_eight {a : Int} {k : Nat} (h : Int.tdiv a 8 = (k : Int))
    (hk : 3 ≤ k) : 0 ≤ a := by
  by_contra hneg
  have h1 : a = -(-a) := by omega
  have h2 := Int.tdiv_nonneg (a := -a) (b := 8) (by omega) (by omega)
  rw [h1, Int.neg_tdiv] at h
  omega

/-- Decoding: when the header fields are non-negative, a pixel has at least 3 bytes, the
declared size is the exact size of header and pixel array, and the file is at least that
long, `read_image` returns the `h` by `w` image whose pixel `(i, j)` is stored at offset
`start + (h - 1 - i) * stride + j * k`. -/
theorem read_image_decodes (file : List Byte) (h w k start : Nat)
    (hk : Int.tdiv (read_header file).bits_per_pixel 8 = (k : Int)) (hk3 : 3 ≤ k)
    (hw : (read_header file).width = (w : Int)) (hh : (read_header file).height = (h : Int))
    (hst : (read_header file).start = (start : Int))
    (hsize : (read_header file).file_size =
      ((start + h * (w * k + padOf (w * k)) : Nat) : Int))
    (hlen : start + h * (w * k + padOf (w * k)) ≤ file.length) :
    ∃ img, read_image file = some img ∧ img.Rect h w ∧
      ∀ i < h, ∀ j < w,
        img.at i j = pixelAt file (start + (h - 1 - i) * (w * k + padOf (w * k)) + j * k) := by
  have h30 := length_of_bits_per_pixel file (nonneg_of_tdiv_eight hk hk3)
  have hhd := read_header_of_length file h30
  have hstream : (read_header file).stream = { data := file, pos := 30, fail := false } := by
    rw [hhd]
  have hrange : (read_header file).file_size < 2147483648 := by
    rw [hhd]; exact (wrap32_range _).2
  rw [hsize] at hrange
  have hwn : (read_header file).width.toNat = w := by rw [hw]; exact Int.toNat_ofNat w
  have hhn : (read_header file).height.toNat = h := by rw [hh]; exact Int.toNat_ofNat h
  rcases Nat.eq_zero_or_pos h with h0 | hpos
  · subst h0
    have hexp : (read_header file).expected_size = (read_header file).file_size := by
      rw [hsize]
      simp only [Header.expected_size, hh, hst, Nat.cast_zero, mul_zero, Nat.zero_mul,
        Nat.add_zero]
      rw [wrap32_of_fits (x := 0) (by omega) (by omega), add_zero,
        wrap32_of_fits (by omega) (by omega)]
    refine ⟨[], ?_, ⟨rfl, by simp⟩, fun i hi => absurd hi (Nat.not_lt_zero _)⟩
    unfold read_image
    simp only [hexp, ne_eq, not_true_eq_false, if_false, hh, hw, hhn]
    rw [if_neg (by omega)]
    simp [forLoopDown_zero, mkImage]
  · have hS : w * k + padOf (w * k) ≤ h * (w * k + padOf (w * k)) :=
      Nat.le_mul_of_pos_left _ hpos
    have hscan : (read_header file).scanline_size = ((w * k : Nat) : Int) := by
      simp only [Header.scanline_size, hw, hk]
      rw [wrap32_of_fits] <;> push_cast <;> omega
    have hpad : (read_header file).padding = ((padOf (w * k) : Nat) : Int) := by
      simp only [Header.padding, hscan]
      rw [Int.tmod_eq_emod (by omega) (by omega)]
      unfold padOf
      split_ifs <;> omega
    have hexp : (read_header file).expected_size = (read_header file).file_size := by
      rw [hsize]
      simp only [Header.expected_size, hscan, hpad, hh, hst]
      have e : ((w * k : Nat) : Int) + ((padOf (w * k) : Nat) : Int) =
          ((w * k + padOf (w * k) : Nat) : Int) := by push_cast; rfl
      have e2 : ((w * k + padOf (w * k) : Nat) : Int) * (h : Int) =
          ((h * (w * k + padOf (w * k)) : Nat) : Int) := by push_cast; ring
      rw [e, wrap32_of_fits (x := ((w * k + padOf (w * k) : Nat) : Int)) (by omega) (by omega),
        e2, wrap32_of_fits (x := ((h * (w * k + padOf (w * k)) : Nat) : Int)) (by omega)
          (by omega),
        wrap32_of_fits (by omega) (by omega)]
      push_cast
      rfl
    obtain ⟨hr, hpx⟩ := read_rows_ok (read_header file) file h w k (padOf (w * k)) start hk hk3
      hwn hpad hlen (by omega) h (Nat.le_refl _)
      { image := mkImage h w, pos := (read_header file).start,
        stream := (read_header file).stream } 30 hstream
      (by simp only [hst, Nat.sub_self, Nat.zero_mul, Nat.add_zero])
      (mkImage_rect h w) (fun i hi hi' => absurd hi (by omega))
    refine ⟨_, ?_, hr, hpx⟩
    unfold read_image
    simp only [hexp, ne_eq, not_true_eq_false, if_false, hhn, hwn]
    rw [if_neg (by omega)]

/-! ## The bytes written by `write_image` -/

theorem write_cols_eq (image : Image) (h n : Nat) (out : List Byte) :
    forLoop n (fun w out => write_pixel image h w out) out =
      out ++ (List.range n).flatMap (fun w => pixel_bytes (image.at h w)) := by
  induction n with
  | zero => simp [forLoop_zero]
  | succ n ih =>
    rw [forLoop_succ, ih, List.range_succ, List.flatMap_append]
    simp [write_pixel, pixel_bytes]

theorem write_row_eq (image : Image) (h : Nat) (out : List Byte) :
    write_row image h out = out ++ row_bytes image h := by
  simp only [write_row, row_bytes, write_cols_eq, List.append_assoc]

theorem write_rows_eq (image : Image) (n : Nat) :
    ∀ out : List Byte, forLoopDown n (fun h out => write_row image h out) out =
      out ++ (List.range n).flatMap (fun t => row_bytes image (n - 1 - t)) := by
  induction n with
  | zero => intro out; simp [forLoopDown_zero]
  | succ n ih =>
    intro out
    rw [forLoopDown_succ, ih, write_row_eq, List.range_succ_eq_map, List.flatMap_cons,
      List.flatMap_map, List.append_assoc]
    have e : (fun a : Nat => row_bytes image (n - a.succ)) =
        (fun t => row_bytes image (n - 1 - t)) := by
      funext a
      congr 1
      omega
    simp only [Nat.add_sub_cancel, Nat.sub_zero]
    rw [e]

theorem write_image_eq (image : Image) :
    write_image image = (bmp_header image ++ dib_header image) ++
      (List.range (height_pixels image).toNat).flatMap
        (fun t => row_bytes image ((height_pixels image).toNat - 1 - t)) := by
  unfold write_image
  exact write_rows_eq image (height_pixels image).toNat _

theorem width_pixels_toNat {image : Image} (hw : image.width < 2147483648) :
    (width_pixels image).toNat = image.width := by
  unfold width_pixels
  rw [wrap32_natCast hw, Int.toNat_ofNat]

theorem height_pixels_toNat {image : Image} (hh : image.length < 2147483648) :
    (height_pixels image).toNat = image.length := by
  unfold height_pixels
  rw [wrap32_natCast hh, Int.toNat_ofNat]

/-- Blocks of equal length `s` laid one after the other: their total length, and the entry
`j` of block `i`. -/
theorem flatMap_range_blocks {α : Type} (f : Nat → List α) (s : Nat)
    (hlen : ∀ i, (f i).length = s) (n : Nat) :
    ((List.range n).flatMap f).length = n * s ∧
    ∀ i < n, ∀ j < s, ((List.range n).flatMap f)[i * s + j]? = (f i)[j]? := by
  induction n with
  | zero => exact ⟨by simp, fun i hi => absurd hi (Nat.not_lt_zero _)⟩
  | succ n ih =>
    obtain ⟨hl, hget⟩ := ih
    rw [List.range_succ, List.flatMap_append]
    have hsing : List.flatMap [n] f = f n := by simp
    rw [hsing]
    refine ⟨by rw [List.length_append, hl, hlen, Nat.succ_mul], ?_⟩
    intro i hi j hj
    by_cases hin : i = n
    · subst hin
      rw [List.getElem?_append_right (by rw [hl]; omega), hl]
      congr 1
      omega
    · have hlt : i < n := by omega
      have hb : (i + 1) * s ≤ n * s := Nat.mul_le_mul_right _ hlt
      rw [Nat.succ_mul] at hb
      rw [List.getElem?_append_left (by rw [hl]; omega)]
      exact hget i hlt j hj

theorem tmod_four (x : Int) :
    Int.tmod x 4 = if 0 ≤ x then x % 4 else -((-x) % 4) := by
  split_ifs with hx
  · exact Int.tmod_eq_emod hx (by omega)
  · have h1 : x = -(-x) := by omega
    have h2 : Int.tdiv (-x) 4 = (-x) / 4 := Int.tdiv_eq_ediv (by omega) (by omega)
    have h3 : Int.tdiv x 4 = -((-x) / 4) := by
      rw [← h2, ← Int.neg_tdiv, ← h1]
    rw [Int.tmod_def, h3]
    omega

/-- The padding `write_image` computes is the number of bytes that round `3 * width` up to
a multiple of 4, also when `width * 3` leaves the 32-bit range. -/
theorem padding_bytes_eq (image : Image) :
    padding_bytes image = ((padOf (3 * image.width) : Nat) : Int) := by
  unfold padding_bytes padOf width_pixels
  rw [wrap32_mul_left, tmod_four (wrap32 ((image.width : Int) * 3)), tmod_four]
  unfold wrap32
  split_ifs <;> omega

theorem padOf_lt (s : Nat) : padOf s < 4 := by
  unfold padOf; omega

theorem pixel_bytes_length (p : Pixel) : (pixel_bytes p).length = 3 := rfl

theorem take_zeros (n : Nat) (hn : n < 4) :
    List.take n [(0 : Byte), 0, 0] = List.replicate n 0 := by
  interval_cases n <;> rfl

/-- The bytes of a stored row when the width fits an `int`. -/
theorem row_bytes_eq (image : Image) (h : Nat) (hw : image.width < 2147483648) :
    row_bytes image h =
      (List.range image.width).flatMap (fun w => pixel_bytes (image.at h w)) ++
        List.replicate (padOf (3 * image.width)) 0 := by
  unfold row_bytes
  rw [padding_bytes_eq, Int.toNat_ofNat, take_zeros _ (padOf_lt _), width_pixels_toNat hw]

theorem row_bytes_length (image : Image) (h : Nat) (hw : image.width < 2147483648) :
    (row_bytes image h).length = 3 * image.width + padOf (3 * image.width) := by
  rw [row_bytes_eq image h hw, List.length_append, List.length_replicate,
    (flatMap_range_blocks (fun w => pixel_bytes (image.at h w)) 3
      (fun _ => pixel_bytes_length _) image.width).1, Nat.mul_comm]

theorem row_bytes_pixel (image : Image) (h c k : Nat) (hc : c < image.width) (hk : k < 3)
    (hw : image.width < 2147483648) :
    (row_bytes image h)[3 * c + k]? = (pixel_bytes (image.at h c))[k]? := by
  obtain ⟨hl, hget⟩ := flatMap_range_blocks (fun w => pixel_bytes (image.at h w)) 3
    (fun _ => pixel_bytes_length _) image.width
  rw [row_bytes_eq image h hw, List.getElem?_append_left (by rw [hl]; omega), Nat.mul_comm 3 c]
  exact hget c hc k hk

theorem set_bytes_four (arr : List Byte) (off : Nat) (v : Int) :
    set_bytes arr off 4 v = (((arr.set off (toByte v)).set (off + 1) (toByte (v / 256))).set
      (off + 2) (toByte (v / 65536))).set (off + 3) (toByte (v / 16777216)) := by
  simp only [set_bytes, forLoop_succ, forLoop_zero]
  norm_num

theorem set_bytes_two (arr : List Byte) (off : Nat) (v : Int) :
    set_bytes arr off 2 v = (arr.set off (toByte v)).set (off + 1) (toByte (v / 256)) := by
  simp only [set_bytes, forLoop_succ, forLoop_zero]
  norm_num

theorem set_bytes_one (arr : List Byte) (off : Nat) (v : Int) :
    set_bytes arr off 1 v = arr.set off (toByte v) := by
  simp only [set_bytes, forLoop_succ, forLoop_zero]
  norm_num

/-- The 54 header bytes, field by field. -/
theorem header_eq (image : Image) :
    bmp_header image ++ dib_header image =
      [66, 77,
        toByte (wrap32 (54 + array_bytes image)),
        toByte (wrap32 (54 + array_bytes image) / 256),
        toByte (wrap32 (54 + array_bytes image) / 65536),
        toByte (wrap32 (54 + array_bytes image) / 16777216),
        0, 0, 0, 0, 54, 0, 0, 0,
        40, 0, 0, 0,
        toByte (width_pixels image), toByte (width_pixels image / 256),
        toByte (width_pixels image / 65536), toByte (width_pixels image / 16777216),
        toByte (height_pixels image), toByte (height_pixels image / 256),
        toByte (height_pixels image / 65536), toByte (height_pixels image / 16777216),
        1, 0, 24, 0, 0, 0, 0, 0,
        toByte (array_bytes image), toByte (array_bytes image / 256),
        toByte (array_bytes image / 65536), toByte (array_bytes image / 16777216),
        19, 11, 0, 0, 19, 11, 0, 0, 0, 0, 0, 0, 0, 0, 0, 0] := by
  have c0 : wrap32 (14 + 40) = 54 := by decide
  have c1 : toByte 66 = 66 := by decide
  have c2 : toByte 77 = 77 := by decide
  have c3 : toByte 0 = 0 := by decide
  have c4 : toByte 54 = 54 := by decide
  have c5 : toByte 40 = 40 := by decide
  have c6 : toByte 1 = 1 := by decide
  have c7 : toByte 24 = 24 := by decide
  have c8 : toByte 2835 = 19 := by decide
  have c9 : toByte (2835 / 256) = 11 := by decide
  have d1 : (0 : Int) / 256 = 0 := by decide
  have d2 : (0 : Int) / 65536 = 0 := by decide
  have d3 : (0 : Int) / 16777216 = 0 := by decide
  have d4 : (54 : Int) / 256 = 0 := by decide
  have d5 : (54 : Int) / 65536 = 0 := by decide
  have d6 : (54 : Int) / 16777216 = 0 := by decide
  have d7 : (40 : Int) / 256 = 0 := by decide
  have d8 : (40 : Int) / 65536 = 0 := by decide
  have d9 : (40 : Int) / 16777216 = 0 := by decide
  have d10 : (1 : Int) / 256 = 0 := by decide
  have d11 : (24 : Int) / 256 = 0 := by decide
  have d12 : (2835 : Int) / 65536 = 0 := by decide
  have d13 : (2835 : Int) / 16777216 = 0 := by decide
  simp only [bmp_header, dib_header, set_bytes_four, set_bytes_two, set_bytes_one, c0, d1, d2,
    d3, d4, d5, d6, d7, d8, d9, d10, d11, d12, d13, c1, c2, c3, c4, c5, c6, c7, c8, c9]
  simp only [List.replicate, List.set_cons_zero, List.set_cons_succ, Nat.reduceAdd]
  rfl

theorem header_length (image : Image) : (bmp_header image ++ dib_header image).length = 54 := by
  rw [header_eq]; rfl

/-- The number of bytes written when the width fits an `int`: the header and one stored row
for each turn of the row loop. -/
theorem write_image_length_rows (image : Image) (hw : image.width < 2147483648) :
    (write_image image).length = 54 + (height_pixels image).toNat * stride image.width := by
  rw [write_image_eq, List.length_append, header_length,
    (flatMap_range_blocks (fun t => row_bytes image ((height_pixels image).toNat - 1 - t))
      (stride image.width) (fun _ => row_bytes_length _ _ hw) (height_pixels image).toNat).1]

theorem write_image_length (image : Image) (hw : image.width < 2147483648)
    (hh : image.length < 2147483648) :
    (write_image image).length = 54 + image.length * stride image.width := by
  rw [write_image_length_rows image hw, height_pixels_toNat hh]

/-- The bytes after the header: the stored row `t` is the row `length - 1 - t` of the image. -/
theorem write_image_row (image : Image) (t u : Nat) (ht : t < image.length)
    (hu : u < stride image.width) (hw : image.width < 2147483648)
    (hh : image.length < 2147483648) :
    (write_image image)[54 + t * stride image.width + u]? =
      (row_bytes image (image.length - 1 - t))[u]? := by
  obtain ⟨-, hget⟩ := flatMap_range_blocks (fun t => row_bytes image (image.length - 1 - t))
    (stride image.width) (fun _ => row_bytes_length _ _ hw) image.length
  rw [write_image_eq, height_pixels_toNat hh,
    List.getElem?_append_right (by rw [header_length]; omega), header_length]
  have e : 54 + t * stride image.width + u - 54 = t * stride image.width + u := by omega
  rw [e]
  exact hget t ht u hu

theorem write_image_header (image : Image) (i : Nat) (hi : i < 54) :
    (write_image image)[i]? = (bmp_header image ++ dib_header image)[i]? := by
  rw [write_image_eq, List.getElem?_append_left (by rw [header_length]; exact hi)]

theorem write_image_take (image : Image) :
    (write_image image).take 54 = bmp_header image ++ dib_header image := by
  rw [write_image_eq, List.take_append_of_le_length (by rw [header_length]),
    List.take_of_length_le (by rw [header_length])]

theorem toByte_val (x : Int) : ((toByte x).val : Int) = x % 256 := by
  simp only [toByte, Fin.ofNat, Nat.reduceAdd]
  omega

/-- The three bytes of pixel `(r, c)` in the written file. -/
theorem write_image_pixel (image : Image) (r c k : Nat) (hr : r < image.length)
    (hc : c < image.width) (hk : k < 3) (hw : image.width < 2147483648)
    (hh : image.length < 2147483648) :
    (write_image image)[54 + (image.length - 1 - r) * stride image.width + (3 * c + k)]? =
      (pixel_bytes (image.at r c))[k]? := by
  have hs : 3 * c + k < stride image.width := by unfold stride; omega
  rw [write_image_row image (image.length - 1 - r) (3 * c + k) (by omega) hs hw hh,
    row_bytes_pixel image _ c k hc hk hw]
  have e : image.length - 1 - (image.length - 1 - r) = r := by omega
  rw [e]

theorem Image.at_mem {img : Image} {H W : Nat} (hrect : img.Rect H W) {r c : Nat}
    (hr : r < H) (hc : c < W) : ∃ row ∈ img, img.at r c ∈ row := by
  have hr' : r < img.length := by rw [hrect.1]; exact hr
  have hlen : img[r].length = W := hrect.2 _ (List.getElem_mem hr')
  refine ⟨img[r], List.getElem_mem hr', ?_⟩
  have hc' : c < img[r].length := by rw [hlen]; exact hc
  have e : img.at r c = img[r][c] := by
    simp [Image.at, List.getD_eq_getElem, hr', hc']
  rw [e]
  exact List.getElem_mem hc'

theorem Image.inRange_at {img : Image} {H W : Nat} (hrect : img.Rect H W)
    (hrange : img.InRange) {r c : Nat} (hr : r < H) (hc : c < W) :
    (0 ≤ (img.at r c).red ∧ (img.at r c).red ≤ 255) ∧
    (0 ≤ (img.at r c).green ∧ (img.at r c).green ≤ 255) ∧
    (0 ≤ (img.at r c).blue ∧ (img.at r c).blue ≤ 255) := by
  obtain ⟨row, hrow, hmem⟩ := Image.at_mem hrect hr hc
  exact hrange row hrow _ hmem

theorem array_bytes_cong (image : Image) :
    ∃ q : Int, array_bytes image =
      ((image.length * stride image.width : Nat) : Int) + 4294967296 * q := by
  unfold array_bytes width_bytes
  rw [padding_bytes_eq]
  unfold width_pixels height_pixels
  obtain ⟨qw, hqw⟩ := wrap32_cong (image.width : Int)
  obtain ⟨qh, hqh⟩ := wrap32_cong (image.length : Int)
  obtain ⟨q1, h1⟩ := wrap32_cong (wrap32 (image.width : Int) * 3)
  obtain ⟨q2, h2⟩ := wrap32_cong (wrap32 (wrap32 (image.width : Int) * 3) +
    ((padOf (3 * image.width) : Nat) : Int))
  obtain ⟨q3, h3⟩ := wrap32_cong (wrap32 (wrap32 (wrap32 (image.width : Int) * 3) +
    ((padOf (3 * image.width) : Nat) : Int)) * wrap32 (image.length : Int))
  refine ⟨q3 + (q1 + q2 + 3 * qw) * (image.length : Int) +
    ((stride image.width : Nat) : Int) * qh +
    4294967296 * ((q1 + q2 + 3 * qw) * qh), ?_⟩
  rw [h3, h2, h1, hqw, hqh]
  unfold stride
  push_cast
  ring

theorem file_size_cong (image : Image) :
    ∃ q : Int, wrap32 (54 + array_bytes image) =
      ((54 + image.length * stride image.width : Nat) : Int) + 4294967296 * q := by
  obtain ⟨q1, h1⟩ := array_bytes_cong image
  obtain ⟨q2, h2⟩ := wrap32_cong (54 + array_bytes image)
  refine ⟨q1 + q2, ?_⟩
  rw [h2, h1]
  push_cast
  ring

theorem le_bytes_four (v : Nat) :
    le_bytes 4 v = [Fin.ofNat v, Fin.ofNat (v / 256), Fin.ofNat (v / 65536),
      Fin.ofNat (v / 16777216)] := by
  simp [le_bytes, List.range_succ]

theorem toByte_eq_ofNat {x : Int} {v : Nat} (h : x % 256 = ((v % 256 : Nat) : Int)) :
    toByte x = Fin.ofNat v := by
  apply Fin.ext
  have := toByte_val x
  simp only [Fin.ofNat, Nat.reduceAdd]
  omega

theorem toByte_quad (T : Int) (v : Nat) (q : Int) (h : T = (v : Int) + 4294967296 * q) :
    [toByte T, toByte (T / 256), toByte (T / 65536), toByte (T / 16777216)] = le_bytes 4 v := by
  rw [le_bytes_four, toByte_eq_ofNat (x := T) (v := v) (by omega),
    toByte_eq_ofNat (x := T / 256) (v := v / 256) (by omega),
    toByte_eq_ofNat (x := T / 65536) (v := v / 65536) (by omega),
    toByte_eq_ofNat (x := T / 16777216) (v := v / 16777216) (by omega)]

theorem le_value_le_bytes_four (v : Nat) : le_value (le_bytes 4 v) = v % 4294967296 := by
  rw [le_bytes_four]
  simp only [le_value, List.foldr, Fin.ofNat, Nat.reduceAdd]
  omega

/-- The 54 header bytes as little-endian fields. -/
theorem header_le_bytes (image : Image) :
    bmp_header image ++ dib_header image =
      [66, 77] ++ le_bytes 4 (54 + image.length * stride image.width) ++ [0, 0, 0, 0] ++
        le_bytes 4 54 ++ le_bytes 4 40 ++ le_bytes 4 image.width ++ le_bytes 4 image.length ++
        le_bytes 2 1 ++ le_bytes 2 24 ++ le_bytes 4 0 ++
        le_bytes 4 (image.length * stride image.width) ++ le_bytes 4 2835 ++ le_bytes 4 2835 ++
        le_bytes 4 0 ++ le_bytes 4 0 := by
  obtain ⟨q1, h1⟩ := file_size_cong image
  obtain ⟨q2, h2⟩ := array_bytes_cong image
  have e1 := toByte_quad _ _ q1 h1
  have e2 := toByte_quad _ _ q2 h2
  obtain ⟨q3, h3⟩ := wrap32_cong (image.width : Int)
  obtain ⟨q4, h4⟩ := wrap32_cong (image.length : Int)
  have e3 := toByte_quad (width_pixels image) image.width q3 h3
  have e4 := toByte_quad (height_pixels image) image.length q4 h4
  rw [← e1, ← e2, ← e3, ← e4, header_eq]
  have k1 : le_bytes 4 54 = [54, 0, 0, 0] := by decide
  have k2 : le_bytes 4 40 = [40, 0, 0, 0] := by decide
  have k3 : le_bytes 2 1 = [1, 0] := by decide
  have k4 : le_bytes 2 24 = [24, 0] := by decide
  have k5 : le_bytes 4 0 = [0, 0, 0, 0] := by decide
  have k6 : le_bytes 4 2835 = [19, 11, 0, 0] := by decide
  rw [k1, k2, k3, k4, k5, k6]
  rfl

/-! ## Reading back what `write_image` wrote -/

theorem byteAt_of_get {file : List Byte} {i : Nat} {b : Byte} (h : file[i]? = some b) :
    byteAt file i = (b.val : Int) := by
  unfold byteAt
  rw [List.getD_eq_getElem?_getD, h]
  rfl

theorem le32_of_toByte (file : List Byte) (off : Nat) (T : Int)
    (h0 : file[off]? = some (toByte T)) (h1 : file[off + 1]? = some (toByte (T / 256)))
    (h2 : file[off + 2]? = some (toByte (T / 65536)))
    (h3 : file[off + 3]? = some (toByte (T / 16777216)))
    (hlo : -2147483648 ≤ T) (hhi : T < 2147483648) :
    le32 file off = T := by
  unfold le32
  rw [byteAt_of_get h0, byteAt_of_get h1, byteAt_of_get h2, byteAt_of_get h3]
  simp only [toByte_val]
  unfold wrap32
  omega

/-- The header that `read_image` reads back from the bytes of `write_image`. -/
theorem read_header_write_image (image : Image) (hw : image.width < 2147483648)
    (hh : image.length < 2147483648) :
    (read_header (write_image image)).file_size = wrap32 (54 + array_bytes image) ∧
    (read_header (write_image image)).start = 54 ∧
    (read_header (write_image image)).width = (image.width : Int) ∧
    (read_header (write_image image)).height = (image.length : Int) ∧
    (read_header (write_image image)).bits_per_pixel = 24 := by
  have hlen : 30 ≤ (write_image image).length := by rw [write_image_length image hw hh]; omega
  rw [read_header_of_length _ hlen]
  have g : ∀ i < 54, (write_image image)[i]? = (bmp_header image ++ dib_header image)[i]? :=
    fun i hi => write_image_header image i hi
  have hwp : width_pixels image = (image.width : Int) := wrap32_natCast hw
  have hhp : height_pixels image = (image.length : Int) := wrap32_natCast hh
  simp only [header_eq, hwp, hhp] at g
  have c54 : toByte 54 = 54 := by decide
  have c0 : toByte (54 / 256) = 0 := by decide
  have c1 : toByte (54 / 65536) = 0 := by decide
  have c2 : toByte (54 / 16777216) = 0 := by decide
  refine ⟨?_, ?_, ?_, ?_, ?_⟩
  · exact le32_of_toByte _ 2 _ (g 2 (by omega)) (g 3 (by omega)) (g 4 (by omega))
      (g 5 (by omega)) (wrap32_range _).1 (wrap32_range _).2
  · exact le32_of_toByte _ 10 54 (by rw [c54]; exact g 10 (by omega))
      (by rw [c0]; exact g 11 (by omega)) (by rw [c1]; exact g 12 (by omega))
      (by rw [c2]; exact g 13 (by omega)) (by omega) (by omega)
  · exact le32_of_toByte _ 18 _ (g 18 (by omega)) (g 19 (by omega)) (g 20 (by omega))
      (g 21 (by omega)) (by omega) (by omega)
  · exact le32_of_toByte _ 22 _ (g 22 (by omega)) (g 23 (by omega)) (g 24 (by omega))
      (g 25 (by omega)) (by omega) (by omega)
  · show le16 (write_image image) 28 = 24
    unfold le16
    rw [byteAt_of_get (g 28 (by omega)), byteAt_of_get (g 29 (by omega))]
    rfl

theorem stride_comm (W : Nat) : W * 3 + padOf (W * 3) = stride W := by
  unfold stride; rw [Nat.mul_comm]

/-- Decoding the written bytes: the image of the same shape with every channel reduced
modulo 256. -/
theorem read_write_image_at (img : Image) (H W : Nat) (hrect : img.Rect H W) (hH : 0 < H)
    (hdim : H < 2147483648) (hfit : 54 + stride W * H < 2147483648) :
    ∃ img', read_image (write_image img) = some img' ∧ img'.Rect H W ∧
      ∀ i < H, ∀ j < W, img'.at i j =
        { red := (img.at i j).red % 256, green := (img.at i j).green % 256,
          blue := (img.at i j).blue % 256 } := by
  have hl : img.length = H := hrect.1
  have hw : img.width = W := Image.rect_width hrect hH
  have hS : stride W ≤ stride W * H := Nat.le_mul_of_pos_right _ hH
  have h3W : 3 * W ≤ stride W := by unfold stride; omega
  have hmul : stride W * H = H * stride W := Nat.mul_comm _ _
  have hW1 : W < 2147483648 := by omega
  have hab : array_bytes img = ((H * stride W : Nat) : Int) := by
    unfold array_bytes width_bytes
    rw [padding_bytes_eq]
    unfold width_pixels height_pixels
    rw [hl, hw, wrap32_natCast hW1, wrap32_natCast hdim]
    have e1 : wrap32 ((W : Int) * 3) = ((3 * W : Nat) : Int) := by
      rw [wrap32_of_fits] <;> push_cast <;> omega
    have e2 : ((3 * W : Nat) : Int) + ((padOf (3 * W) : Nat) : Int) = ((stride W : Nat) : Int) := by
      unfold stride; push_cast; rfl
    have e3 : ((stride W : Nat) : Int) * (H : Int) = ((H * stride W : Nat) : Int) := by
      push_cast; ring
    rw [e1, e2, wrap32_of_fits (x := ((stride W : Nat) : Int)) (by omega) (by omega), e3,
      wrap32_of_fits (by omega) (by omega)]
  have hT : wrap32 (54 + ((H * stride W : Nat) : Int)) =
      ((54 + H * (W * 3 + padOf (W * 3)) : Nat) : Int) := by
    rw [stride_comm, wrap32_of_fits (by omega) (by omega)]
    push_cast
    rfl
  have hoff : ∀ i j k : Nat, 54 + (H - 1 - i) * stride W + (3 * j + k) =
      54 + (H - 1 - i) * stride W + j * 3 + k := fun i j k => by omega
  clear hS h3W hmul hfit
  obtain ⟨f1, f2, f3, f4, f5⟩ := read_header_write_image img (by rw [hw]; exact hW1)
    (by rw [hl]; exact hdim)
  rw [hw] at f3
  rw [hl] at f4
  rw [hab, hT] at f1
  obtain ⟨img', hread, hr', hpx⟩ := read_image_decodes (write_image img) H W 3 54
    (by rw [f5]; rfl) (Nat.le_refl 3) f3 f4 (by rw [f2]; rfl) f1
    (by rw [write_image_length img (by rw [hw]; exact hW1) (by rw [hl]; exact hdim), hl, hw,
      stride_comm])
  refine ⟨img', hread, hr', ?_⟩
  intro i hi j hj
  rw [hpx i hi j hj, stride_comm]
  have hi' : i < img.length := by rw [hl]; exact hi
  have hj' : j < img.width := by rw [hw]; exact hj
  have hwb : img.width < 2147483648 := by rw [hw]; exact hW1
  have hhb : img.length < 2147483648 := by rw [hl]; exact hdim
  have hb := write_image_pixel img i j 0 hi' hj' (by decide) hwb hhb
  have hg := write_image_pixel img i j 1 hi' hj' (by decide) hwb hhb
  have hrd := write_image_pixel img i j 2 hi' hj' (by decide) hwb hhb
  rw [hl, hw, hoff] at hb hg hrd
  simp only [pixelAt]
  rw [byteAt_of_get hg, byteAt_of_get hrd]
  rw [Nat.add_zero] at hb
  rw [byteAt_of_get hb]
  simp only [pixel_bytes, List.getElem_cons_zero, List.getElem_cons_succ, toByte_val]

theorem read_pixel_rect (hd : Header) (i j h w : Nat) (st : ReadState)
    (hr : st.image.Rect h w) : (read_pixel hd i j st).image.Rect h w := by
  unfold read_pixel
  exact Image.put_rect hr _ _ _

theorem read_row_rect (hd : Header) (i h w : Nat) (st : ReadState) (hr : st.image.Rect h w) :
    (read_row hd i st).image.Rect h w := by
  unfold read_row
  exact forLoop_inv (fun s : ReadState => s.image.Rect h w) _ _ _ hr
    (fun j s hs => read_pixel_rect hd i j h w s hs)

/-- The validity test of `read_image` and the shape of what it returns. -/
theorem read_image_shape (file : List Byte) :
    ((read_header file).file_size ≠ (read_header file).expected_size →
      read_image file = some []) ∧
    ((read_header file).file_size = (read_header file).expected_size →
      0 ≤ (read_header file).height → 0 ≤ (read_header file).width →
      ∃ img, read_image file = some img ∧
        img.Rect (read_header file).height.toNat (read_header file).width.toNat) := by
  constructor
  · intro hne
    unfold read_image
    simp only [hne, ne_eq, not_false_eq_true, if_true]
  · intro heq hh hw
    refine ⟨_, ?_, forLoopDown_inv
      (fun s : ReadState => s.image.Rect (read_header file).height.toNat
        (read_header file).width.toNat) (read_header file).height.toNat
      (fun i st => read_row (read_header file) i st)
      { image := mkImage (read_header file).height.toNat (read_header file).width.toNat,
        pos := (read_header file).start, stream := (read_header file).stream }
      (mkImage_rect _ _) (fun i s hs => read_row_rect (read_header file) i _ _ s hs)⟩
    unfold read_image
    simp only [heq, ne_eq, not_true_eq_false, if_false]
    rw [if_neg (fun hc => by rcases hc with hc | hc <;> exact absurd hc (by omega))]

/-! ## Claims on the bitmap codec -/

/-- C1: for a rectangular image of `H ≥ 1` rows and `W` columns with every channel in
`[0, 255]`, whose height and file size `54 + stride W * H` are below `2^31`, decoding the
bytes that `write_image` emits returns the image itself. -/
theorem read_image_write_image (img : Image) (H W : Nat) (hrect : img.Rect H W) (hH : 0 < H)
    (hrange : img.InRange) (hdim : H < 2147483648)
    (hfit : 54 + stride W * H < 2147483648) :
    read_image (write_image img) = some img := by
  obtain ⟨img', hread, hr', hpx⟩ := read_write_image_at img H W hrect hH hdim hfit
  rw [hread]
  refine congrArg some (Image.ext_at hr' hrect ?_)
  intro i hi j hj
  rw [hpx i hi j hj]
  obtain ⟨⟨r0, r1⟩, ⟨g0, g1⟩, ⟨b0, b1⟩⟩ := Image.inRange_at hrect hrange hi hj
  have er : (img.at i j).red % 256 = (img.at i j).red := by omega
  have eg : (img.at i j).green % 256 = (img.at i j).green := by omega
  have eb : (img.at i j).blue % 256 = (img.at i j).blue := by omega
  rw [er, eg, eb]

theorem read_image_write_image_witness :
    sample22.Rect 2 2 ∧ sample22.InRange ∧ read_image (write_image sample22) = some sample22 :=
  ⟨by decide, by decide,
    read_image_write_image sample22 2 2 (by decide) (by decide) (by decide) (by decide) (by decide)⟩

/-- C2 as stated fails: `negative_height_file` has 54 bytes; its fields at the offsets 2,
10, 18, 22 and 28 are file size 54, start 54, width 0, height `-1` and 24 bits per pixel, so
the scan line and the padding are 0 and the size test passes (`54 = 54 + 0 * -1`); and
`read_image` returns no buffer at all: the vector of `-1` rows cannot be built. -/
theorem read_image_negative_height :
    30 ≤ negative_height_file.length ∧
    le32 negative_height_file 2 = 54 ∧ le32 negative_height_file 10 = 54 ∧
    le32 negative_height_file 18 = 0 ∧ le32 negative_height_file 22 = -1 ∧
    le16 negative_height_file 28 = 24 ∧
    (54 : Int) = wrap32 (54 + wrap32 (wrap32 (wrap32 (0 * Int.tdiv 24 8) + 0) * -1)) ∧
    read_image negative_height_file = none ∧
    ¬ ((read_header negative_height_file).file_size =
        (read_header negative_height_file).expected_size →
      ∃ img : Image, read_image negative_height_file = some img ∧
        (img.length : Int) = (read_header negative_height_file).height ∧
        ∀ row ∈ img, (row.length : Int) = (read_header negative_height_file).width) := by
  refine ⟨by decide, by decide, by decide, by decide, by decide, by decide, by decide,
    by decide, ?_⟩
  intro h
  obtain ⟨img, hr, -⟩ := h (by decide)
  have hnone : read_image negative_height_file = none := by decide
  rw [hnone] at hr
  cases hr

/-- C2, amended: for a stream of at least 30 bytes, with `file_size`, `start`, `width`,
`height` read as 4-byte and `bits_per_pixel` as 2-byte little-endian values at the offsets
2, 10, 18, 22 and 28, `scanline = width * (bits_per_pixel / 8)` and `padding = 4 -
scanline % 4` when that remainder is not 0 and 0 otherwise (for `scanline ≥ 0` the least
number of bytes that rounds `scanline` up to a multiple of 4), all in 32-bit `int`
arithmetic: `read_image` returns the empty buffer when `file_size` differs from
`start + (scanline + padding) * height`; and when they are equal and `height` and `width`
are non-negative it returns a buffer of exactly `height` rows, each of exactly `width`
pixels. -/
theorem read_image_validates (file : List Byte) (hlen : 30 ≤ file.length)
    (file_size start width height bits_per_pixel scanline padding : Int)
    (hfs : file_size = le32 file 2) (hst : start = le32 file 10)
    (hwd : width = le32 file 18) (hht : height = le32 file 22)
    (hbp : bits_per_pixel = le16 file 28)
    (hsc : scanline = wrap32 (width * Int.tdiv bits_per_pixel 8))
    (hpd : padding = if Int.tmod scanline 4 ≠ 0 then 4 - Int.tmod scanline 4 else 0) :
    (0 ≤ scanline → 0 ≤ padding ∧ padding < 4 ∧ (scanline + padding) % 4 = 0 ∧
      ∀ p : Int, 0 ≤ p → (scanline + p) % 4 = 0 → padding ≤ p) ∧
    (file_size ≠ wrap32 (start + wrap32 (wrap32 (scanline + padding) * height)) →
      read_image file = some []) ∧
    (file_size = wrap32 (start + wrap32 (wrap32 (scanline + padding) * height)) →
      0 ≤ height → 0 ≤ width →
      ∃ img : Image, read_image file = some img ∧
        (img.length : Int) = height ∧
        ∀ row ∈ img, (row.length : Int) = width) := by
  have hhd := read_header_of_length file hlen
  have e1 : (read_header file).file_size = file_size := by rw [hhd, hfs]
  have e3 : (read_header file).width = width := by rw [hhd, hwd]
  have e4 : (read_header file).height = height := by rw [hhd, hht]
  have eexp : (read_header file).expected_size =
      wrap32 (start + wrap32 (wrap32 (scanline + padding) * height)) := by
    rw [hhd, hpd, hsc, hst, hwd, hht, hbp]
    rfl
  refine ⟨?_, ?_, ?_⟩
  · intro h0
    have hmod : Int.tmod scanline 4 = scanline % 4 := Int.tmod_eq_emod h0 (by omega)
    rw [hmod] at hpd
    rw [hpd]
    split_ifs with hz
    · refine ⟨by omega, by omega, by omega, fun p hp hdiv => by omega⟩
    · refine ⟨by omega, by omega, by omega, fun p hp hdiv => by omega⟩
  · intro hne
    exact (read_image_shape file).1 (by rw [e1, eexp]; exact hne)
  · intro heq hh hw
    obtain ⟨img, hread, hlen', hrows⟩ := (read_image_shape file).2 (by rw [e1, eexp]; exact heq)
      (by rw [e4]; exact hh) (by rw [e3]; exact hw)
    refine ⟨img, hread, ?_, ?_⟩
    · rw [hlen', e4]; exact Int.toNat_of_nonneg hh
    · intro row hrow
      rw [hrows row hrow, e3]; exact Int.toNat_of_nonneg hw

set_option maxRecDepth 100000 in
theorem read_image_validates_witness :
    30 ≤ (write_image sample23).length ∧
    le32 (write_image sample23) 2 = 78 ∧ le32 (write_image sample23) 10 = 54 ∧
    le32 (write_image sample23) 18 = 3 ∧ le32 (write_image sample23) 22 = 2 ∧
    le16 (write_image sample23) 28 = 24 ∧
    ∃ img : Image, read_image (write_image sample23) = some img ∧
      (img.length : Int) = 2 ∧ ∀ row ∈ img, (row.length : Int) = 3 :=
  ⟨by decide, by decide, by decide, by decide, by decide, by decide,
    (read_image_validates (write_image sample23) (by decide) 78 54 3 2 24 9 3 (by decide)
      (by decide) (by decide) (by decide) (by decide) (by decide) (by decide)).2.2 (by decide)
      (by decide) (by decide)⟩

/-- C3 as stated fails: `truncated_file` declares a 1 by 1 image of 24 bits per pixel and
passes the size test (58 = 54 + 4 * 1), but it ends after the header: the three `get()`
calls return `-1` and there is no stream byte at offset 54. -/
theorem read_image_truncated :
    (read_header truncated_file).file_size = (read_header truncated_file).expected_size ∧
    read_image truncated_file = some [[⟨-1, -1, -1⟩]] ∧
    ¬ ∃ img : Image, read_image truncated_file = some img ∧
      ∀ i < 1, ∀ j < 1, ∃ b g r : Byte,
        truncated_file[54 + (1 - 1 - i) * (1 * 3 + padOf (1 * 3)) + j * 3]? = some b ∧
        truncated_file[54 + (1 - 1 - i) * (1 * 3 + padOf (1 * 3)) + j * 3 + 1]? = some g ∧
        truncated_file[54 + (1 - 1 - i) * (1 * 3 + padOf (1 * 3)) + j * 3 + 2]? = some r ∧
        img.at i j = ⟨r.val, g.val, b.val⟩ := by
  refine ⟨by decide, by decide, ?_⟩
  rintro ⟨img, -, h⟩
  obtain ⟨b, g, r, hb, -⟩ := h 0 (by decide) 0 (by decide)
  have hnone : truncated_file[54 + (1 - 1 - 0) * (1 * 3 + padOf (1 * 3)) + 0 * 3]? = none := by
    decide
  rw [hnone] at hb
  cases hb

/-- C3, amended: for a stream whose start, width `w` and height `h` are non-negative, with
`k = bits_per_pixel / 8` at least 3, `stride = w * k + padding`, whose `file_size` is
exactly `start + h * stride` and whose actual length is at least that, `read_image` returns
an `h` by `w` buffer whose pixel `(i, j)` has blue, green and red equal to the stream bytes
at offsets `start + (h - 1 - i) * stride + j * k + 0`, `+ 1` and `+ 2`. -/
theorem read_image_pixel_layout (file : List Byte) (h w k start : Nat)
    (hk : Int.tdiv (read_header file).bits_per_pixel 8 = (k : Int)) (hk3 : 3 ≤ k)
    (hw : (read_header file).width = (w : Int)) (hh : (read_header file).height = (h : Int))
    (hst : (read_header file).start = (start : Int))
    (hsize : (read_header file).file_size =
      ((start + h * (w * k + padOf (w * k)) : Nat) : Int))
    (hlen : start + h * (w * k + padOf (w * k)) ≤ file.length) :
    ∃ img : Image, read_image file = some img ∧ img.Rect h w ∧
      ∀ i < h, ∀ j < w, ∃ b g r : Byte,
        file[start + (h - 1 - i) * (w * k + padOf (w * k)) + j * k]? = some b ∧
        file[start + (h - 1 - i) * (w * k + padOf (w * k)) + j * k + 1]? = some g ∧
        file[start + (h - 1 - i) * (w * k + padOf (w * k)) + j * k + 2]? = some r ∧
        img.at i j = ⟨r.val, g.val, b.val⟩ := by
  obtain ⟨img, hread, hr, hpx⟩ := read_image_decodes file h w k start hk hk3 hw hh hst hsize hlen
  refine ⟨img, hread, hr, ?_⟩
  intro i hi j hj
  have e1 : (j + 1) * k ≤ w * k := Nat.mul_le_mul_right _ hj
  have e2 : (h - 1 - i + 1) * (w * k + padOf (w * k)) ≤ h * (w * k + padOf (w * k)) :=
    Nat.mul_le_mul_right _ (by omega)
  rw [Nat.succ_mul] at e1 e2
  have hin : start + (h - 1 - i) * (w * k + padOf (w * k)) + j * k + 2 < file.length := by
    omega
  refine ⟨_, _, _, getElem?_eq_some_getD file (by omega), getElem?_eq_some_getD file (by omega),
    getElem?_eq_some_getD file hin, ?_⟩
  rw [hpx i hi j hj]
  rfl

set_option maxRecDepth 100000 in
theorem read_image_pixel_layout_witness :
    ∃ img : Image, read_image (write_image sample23) = some img ∧ img.Rect 2 3 ∧
      ∀ i < 2, ∀ j < 3, ∃ b g r : Byte,
        (write_image sample23)[54 + (2 - 1 - i) * (3 * 3 + padOf (3 * 3)) + j * 3]? = some b ∧
        (write_image sample23)[54 + (2 - 1 - i) * (3 * 3 + padOf (3 * 3)) + j * 3 + 1]? =
          some g ∧
        (write_image sample23)[54 + (2 - 1 - i) * (3 * 3 + padOf (3 * 3)) + j * 3 + 2]? =
          some r ∧
        img.at i j = ⟨r.val, g.val, b.val⟩ :=
  read_image_pixel_layout (write_image sample23) 2 3 3 54 (by decide) (by decide) (by decide)
    (by decide) (by decide) (by decide) (by decide)

theorem write_image_size_field (image : Image) :
    ((write_image image).drop 2).take 4 =
      le_bytes 4 (54 + image.length * stride image.width) := by
  rw [write_image_eq, header_le_bytes]
  simp only [le_bytes_four, List.append_assoc, List.cons_append, List.nil_append,
    List.drop_succ_cons, List.drop_zero, List.take_succ_cons, List.take_zero]

/-- C4 as stated fails: for one row of 1431655748 pixels `write_image` emits `2^32 + 2`
bytes, and the 4-byte file-size field of the header holds 2. -/
theorem write_image_size_field_wraps :
    le_value (((write_image wide_image).drop 2).take 4) = 2 ∧
    (write_image wide_image).length = 4294967298 ∧
    le_value (((write_image wide_image).drop 2).take 4) ≠ (write_image wide_image).length := by
  have hl : wide_image.length = 1 := rfl
  have hw : wide_image.width = 1431655748 := by
    simp only [wide_image, Image.width, List.getD_cons_zero, List.length_replicate]
  have hs : stride 1431655748 = 4294967244 := by decide
  have h1 : le_value (((write_image wide_image).drop 2).take 4) = 2 := by
    rw [write_image_size_field, le_value_le_bytes_four, hl, hw, hs]
  have h2 : (write_image wide_image).length = 4294967298 := by
    rw [write_image_length wide_image (by rw [hw]; decide) (by rw [hl]; decide), hl, hw, hs]
  refine ⟨h1, h2, ?_⟩
  rw [h1, h2]
  decide

/-- C4, amended: for a rectangular image of `H ≥ 1` rows and `W` columns whose file size
`54 + stride W * H` is below `2^32`, `write_image` emits exactly that many bytes; the first
54 are 'B', 'M', the file size, four zero bytes, 54, 40, `W`, `H`, 1 and 24 on two bytes,
0, `stride W * H`, 2835, 2835, 0, 0, all little-endian; and the file-size field is the
number of bytes emitted. -/
theorem write_image_header_layout (img : Image) (H W : Nat) (hrect : img.Rect H W)
    (hH : 0 < H) (hfit : 54 + stride W * H < 4294967296) :
    (write_image img).length = 54 + stride W * H ∧
    (write_image img).take 54 =
      [66, 77] ++ le_bytes 4 (54 + stride W * H) ++ [0, 0, 0, 0] ++ le_bytes 4 54 ++
        le_bytes 4 40 ++ le_bytes 4 W ++ le_bytes 4 H ++ le_bytes 2 1 ++ le_bytes 2 24 ++
        le_bytes 4 0 ++ le_bytes 4 (stride W * H) ++ le_bytes 4 2835 ++ le_bytes 4 2835 ++
        le_bytes 4 0 ++ le_bytes 4 0 ∧
    le_value (((write_image img).drop 2).take 4) = (write_image img).length := by
  have hl : img.length = H := hrect.1
  have hw : img.width = W := Image.rect_width hrect hH
  have hmul : H * stride W = stride W * H := Nat.mul_comm _ _
  have h3W : 3 * W ≤ stride W := by unfold stride; omega
  have hS : stride W ≤ stride W * H := Nat.le_mul_of_pos_right _ hH
  have hWb : img.width < 2147483648 := by rw [hw]; omega
  have hlen : (write_image img).length = 54 + stride W * H := by
    rw [write_image_length_rows img hWb, hw]
    rcases Nat.eq_zero_or_pos W with h0 | hpos
    · subst h0
      have hs0 : stride 0 = 0 := by decide
      rw [hs0, Nat.mul_zero, Nat.zero_mul]
    · have h3H : 3 * H ≤ stride W * H := Nat.mul_le_mul_right H (by omega)
      rw [height_pixels_toNat (by rw [hl]; omega), hl, hmul]
  refine ⟨hlen, ?_, ?_⟩
  · rw [write_image_take, header_le_bytes, hl, hw, hmul]
  · rw [write_image_size_field, le_value_le_bytes_four, hlen, hl, hw, hmul]
    exact Nat.mod_eq_of_lt hfit

theorem write_image_header_layout_witness :
    sample23.Rect 2 3 ∧ (write_image sample23).length = 54 + stride 3 * 2 ∧
    le_value (((write_image sample23).drop 2).take 4) = (write_image sample23).length :=
  ⟨by decide, (write_image_header_layout sample23 2 3 (by decide) (by decide) (by decide)).1,
    (write_image_header_layout sample23 2 3 (by decide) (by decide) (by decide)).2.2⟩

/-- The loops shared by the per-pixel transforms: every position of the new image holds the
value computed for it. -/
theorem pointwise_loop (val : Nat → Nat → Pixel) (H W : Nat) :
    (forLoop H (fun row acc => forLoop W (fun col a => a.put row col (val row col)) acc)
      (mkImage H W)).Rect H W ∧
    ∀ r < H, ∀ c < W,
      (forLoop H (fun row acc => forLoop W (fun col a => a.put row col (val row col)) acc)
        (mkImage H W)).at r c = val r c := by
  obtain ⟨h1, h2, -⟩ := writeLoop_spec H W W (fun row _ => row) (fun _ col => col) val H
    (mkImage H W) (mkImage_rect H W) (fun row hr col hc => ⟨hr, hc⟩)
    (fun row hr col hc row' hr' col' hc' e1 e2 => ⟨e1, e2⟩)
  exact ⟨h1, h2⟩

theorem process_1_shape (env : FloatEnv) {img : Image} {H W : Nat} (hrect : img.Rect H W)
    (hH : 0 < H) (hHb : H < 2147483648) (hWb : W < 2147483648) :
    ∃ out, process_1 env img = some out ∧ out.Rect H W ∧ ∀ r < H, ∀ c < W,
      out.at r c = process_1_pixel env (H : Int) (W : Int) r c (img.at r c) := by
  have hw : img.width = W := Image.rect_width hrect hH
  have hl : img.length = H := hrect.1
  refine ⟨_, ?_, pointwise_loop (fun r c => process_1_pixel env (H : Int) (W : Int) r c (img.at r c)) H W⟩
  simp only [process_1, hw, hl, wrap32_natCast hHb, wrap32_natCast hWb, Int.toNat_ofNat]
  rw [if_neg (by omega)]

theorem process_2_none (env : FloatEnv) (f : ℚ) {image : Image}
    (h : wrap32 (image.length : Int) < 0 ∨ wrap32 (image.width : Int) < 0) :
    process_2 env image f = none := by
  unfold process_2
  simp only
  rw [if_pos h]

theorem process_2_shape (env : FloatEnv) (f : ℚ) {img : Image} {H W : Nat} (hrect : img.Rect H W)
    (hH : 0 < H) (hHb : H < 2147483648) (hWb : W < 2147483648) :
    ∃ out, process_2 env img f = some out ∧ out.Rect H W ∧ ∀ r < H, ∀ c < W,
      out.at r c = process_2_pixel env f (img.at r c) := by
  have hw : img.width = W := Image.rect_width hrect hH
  have hl : img.length = H := hrect.1
  refine ⟨_, ?_, pointwise_loop (fun r c => process_2_pixel env f (img.at r c)) H W⟩
  simp only [process_2, hw, hl, wrap32_natCast hHb, wrap32_natCast hWb, Int.toNat_ofNat]
  rw [if_neg (by omega)]

theorem process_3_none {image : Image}
    (h : wrap32 (image.length : Int) < 0 ∨ wrap32 (image.width : Int) < 0) :
    process_3 image = none := by
  unfold process_3
  simp only
  rw [if_pos h]

theorem process_3_shape {img : Image} {H W : Nat} (hrect : img.Rect H W)
    (hH : 0 < H) (hHb : H < 2147483648) (hWb : W < 2147483648) :
    ∃ out, process_3 img = some out ∧ out.Rect H W ∧ ∀ r < H, ∀ c < W,
      out.at r c = process_3_pixel (img.at r c) := by
  have hw : img.width = W := Image.rect_width hrect hH
  have hl : img.length = H := hrect.1
  refine ⟨_, ?_, pointwise_loop (fun r c => process_3_pixel (img.at r c)) H W⟩
  simp only [process_3, hw, hl, wrap32_natCast hHb, wrap32_natCast hWb, Int.toNat_ofNat]
  rw [if_neg (by omega)]

theorem process_7_none {image : Image}
    (h : wrap32 (image.length : Int) < 0 ∨ wrap32 (image.width : Int) < 0) :
    process_7 image = none := by
  unfold process_7
  simp only
  rw [if_pos h]

theorem process_7_shape {img : Image} {H W : Nat} (hrect : img.Rect H W)
    (hH : 0 < H) (hHb : H < 2147483648) (hWb : W < 2147483648) :
    ∃ out, process_7 img = some out ∧ out.Rect H W ∧ ∀ r < H, ∀ c < W,
      out.at r c = process_7_pixel (img.at r c) := by
  have hw : img.width = W := Image.rect_width hrect hH
  have hl : img.length = H := hrect.1
  refine ⟨_, ?_, pointwise_loop (fun r c => process_7_pixel (img.at r c)) H W⟩
  simp only [process_7, hw, hl, wrap32_natCast hHb, wrap32_natCast hWb, Int.toNat_ofNat]
  rw [if_neg (by omega)]

theorem process_10_none {image : Image}
    (h : wrap32 (image.length : Int) < 0 ∨ wrap32 (image.width : Int) < 0) :
    process_10 image = none := by
  unfold process_10
  simp only
  rw [if_pos h]

theorem process_10_shape {img : Image} {H W : Nat} (hrect : img.Rect H W)
    (hH : 0 < H) (hHb : H < 2147483648) (hWb : W < 2147483648) :
    ∃ out, process_10 img = some out ∧ out.Rect H W ∧ ∀ r < H, ∀ c < W,
      out.at r c = process_10_pixel (img.at r c) := by
  have hw : img.width = W := Image.rect_width hrect hH
  have hl : img.length = H := hrect.1
  refine ⟨_, ?_, pointwise_loop (fun r c => process_10_pixel (img.at r c)) H W⟩
  simp only [process_10, hw, hl, wrap32_natCast hHb, wrap32_natCast hWb, Int.toNat_ofNat]
  rw [if_neg (by omega)]

/-! ## Grayscale, high contrast and posterize on one pixel -/

theorem wrap32_sum (a b c : Int) : wrap32 (wrap32 (a + b) + c) = wrap32 (a + b + c) := by
  unfold wrap32; omega

theorem wrap32_sum_of_fits {a b c : Int} (hlo : -2147483648 ≤ a + b + c)
    (hhi : a + b + c < 2147483648) : wrap32 (wrap32 (a + b) + c) = a + b + c := by
  rw [wrap32_sum, wrap32_of_fits hlo hhi]

theorem Image.sumsFit_at {img : Image} {H W : Nat} (hrect : img.Rect H W)
    (hfit : img.SumsFit) {r c : Nat} (hr : r < H) (hc : c < W) :
    -2147483648 ≤ (img.at r c).red + (img.at r c).green + (img.at r c).blue ∧
    (img.at r c).red + (img.at r c).green + (img.at r c).blue < 2147483648 := by
  obtain ⟨row, hrow, hmem⟩ := Image.at_mem hrect hr hc
  exact hfit row hrow _ hmem

theorem process_3_pixel_of_fits (p : Pixel) (hlo : -2147483648 ≤ p.red + p.green + p.blue)
    (hhi : p.red + p.green + p.blue < 2147483648) :
    process_3_pixel p =
      { red := Int.tdiv (p.red + p.green + p.blue) 3,
        green := Int.tdiv (p.red + p.green + p.blue) 3,
        blue := Int.tdiv (p.red + p.green + p.blue) 3 } := by
  simp only [process_3_pixel, wrap32_sum_of_fits hlo hhi]

theorem process_7_pixel_of_fits (p : Pixel) (hlo : -2147483648 ≤ p.red + p.green + p.blue)
    (hhi : p.red + p.green + p.blue < 2147483648) :
    process_7_pixel p =
      if Int.tdiv (p.red + p.green + p.blue) 3 ≥ 127 then { red := 255, green := 255, blue := 255 }
      else { red := 0, green := 0, blue := 0 } := by
  have h127 : Int.tdiv 255 2 = 127 := by decide
  simp only [process_7_pixel, wrap32_sum_of_fits hlo hhi, h127]

theorem process_10_pixel_of_fits (p : Pixel) (hlo : -2147483648 ≤ p.red + p.green + p.blue)
    (hhi : p.red + p.green + p.blue < 2147483648) :
    process_10_pixel p =
      if p.red + p.green + p.blue ≥ 550 then { red := 255, green := 255, blue := 255 }
      else if p.red + p.green + p.blue ≤ 150 then { red := 0, green := 0, blue := 0 }
      else if p.red = max p.red (max p.green p.blue) then { red := 255, green := 0, blue := 0 }
      else if p.green = max p.red (max p.green p.blue) then { red := 0, green := 255, blue := 0 }
      else { red := 0, green := 0, blue := 255 } := by
  simp only [process_10_pixel, wrap32_sum_of_fits hlo hhi, eq_comm]

/-! ## Claims on the per-pixel integer transforms -/

/-- C11 as stated fails: for the pixel `(2^30, 2^30, 2^30)` the sum of the channels leaves
the 32-bit range and `process_3` gives `-357913941`, not `(r + g + b) / 3 = 2^30`; and for
`huge_row`, one row of `2^31` pixels, the `int` `num_columns` is negative and `process_3`
returns no image. -/
theorem process_3_overflow :
    overflow_image.Rect 1 1 ∧
    process_3 overflow_image = some [[⟨-357913941, -357913941, -357913941⟩]] ∧
    Int.tdiv ((overflow_image.at 0 0).red + (overflow_image.at 0 0).green +
      (overflow_image.at 0 0).blue) 3 = 1073741824 ∧
    huge_row.Rect 1 2147483648 ∧ process_3 huge_row = none :=
  ⟨by decide, by decide, by decide, huge_row_rect, process_3_none (Or.inr huge_row_width)⟩

/-- C11, amended: for a rectangular image of `H ≥ 1` rows and `W` columns, both below
`2^31`, in which the sum of the channels of every pixel fits a 32-bit `int`, `process_3`
returns an image of the same dimensions whose pixel at every position has red = green =
blue = `(r + g + b) / 3`, truncated, for the input pixel `(r, g, b)` at that position; and
the 2 by 2 example of the specification maps as stated. -/
theorem process_3_grayscale (img : Image) (H W : Nat) (hrect : img.Rect H W) (hH : 0 < H)
    (hHb : H < 2147483648) (hWb : W < 2147483648) (hfit : img.SumsFit) :
    (∃ out, process_3 img = some out ∧ out.Rect H W ∧
      ∀ r < H, ∀ c < W, out.at r c =
        ⟨Int.tdiv ((img.at r c).red + (img.at r c).green + (img.at r c).blue) 3,
          Int.tdiv ((img.at r c).red + (img.at r c).green + (img.at r c).blue) 3,
          Int.tdiv ((img.at r c).red + (img.at r c).green + (img.at r c).blue) 3⟩) ∧
    process_3 [[⟨10, 10, 10⟩, ⟨250, 250, 250⟩], [⟨80, 80, 80⟩, ⟨200, 50, 30⟩]] =
      some [[⟨10, 10, 10⟩, ⟨250, 250, 250⟩], [⟨80, 80, 80⟩, ⟨93, 93, 93⟩]] := by
  obtain ⟨out, ho, hr, hp⟩ := process_3_shape hrect hH hHb hWb
  refine ⟨⟨out, ho, hr, ?_⟩, by decide⟩
  intro r hr c hc
  obtain ⟨hlo, hhi⟩ := Image.sumsFit_at hrect hfit hr hc
  rw [hp r hr c hc, process_3_pixel_of_fits _ hlo hhi]

theorem process_3_grayscale_witness :
    sample23.Rect 2 3 ∧ sample23.SumsFit ∧
    ∃ out, process_3 sample23 = some out ∧ out.Rect 2 3 ∧
      ∀ r < 2, ∀ c < 3, out.at r c =
        ⟨Int.tdiv ((sample23.at r c).red + (sample23.at r c).green + (sample23.at r c).blue) 3,
          Int.tdiv ((sample23.at r c).red + (sample23.at r c).green + (sample23.at r c).blue) 3,
          Int.tdiv ((sample23.at r c).red + (sample23.at r c).green + (sample23.at r c).blue)
            3⟩ :=
  ⟨by decide, by decide,
    (process_3_grayscale sample23 2 3 (by decide) (by decide) (by decide) (by decide)
      (by decide)).1⟩

/-- C13 as stated fails: for the pixel `(2^30, 2^30, 2^30)` the average `(r + g + b) / 3`
is `2^30 ≥ 127`, and `process_7` returns black: the sum it computes has wrapped to a
negative number; and for `huge_row`, one row of `2^31` pixels, `process_7` returns no
image. -/
theorem process_7_overflow :
    overflow_image.Rect 1 1 ∧
    Int.tdiv ((overflow_image.at 0 0).red + (overflow_image.at 0 0).green +
      (overflow_image.at 0 0).blue) 3 ≥ 127 ∧
    process_7 overflow_image = some [[⟨0, 0, 0⟩]] ∧
    huge_row.Rect 1 2147483648 ∧ process_7 huge_row = none :=
  ⟨by decide, by decide, by decide, huge_row_rect, process_7_none (Or.inr huge_row_width)⟩

/-- C13, amended: for a rectangular image of `H ≥ 1` rows and `W` columns, both below
`2^31`, in which the sum of the channels of every pixel fits a 32-bit `int`, `process_7`
returns an image of the same dimensions whose pixel is `(255,255,255)` when the truncated
average `(r + g + b) / 3` of the input pixel is at least 127, and `(0,0,0)` otherwise. -/
theorem process_7_high_contrast (img : Image) (H W : Nat) (hrect : img.Rect H W)
    (hH : 0 < H) (hHb : H < 2147483648) (hWb : W < 2147483648) (hfit : img.SumsFit) :
    ∃ out, process_7 img = some out ∧ out.Rect H W ∧
      ∀ r < H, ∀ c < W, out.at r c =
        if Int.tdiv ((img.at r c).red + (img.at r c).green + (img.at r c).blue) 3 ≥ 127
        then ⟨255, 255, 255⟩ else ⟨0, 0, 0⟩ := by
  obtain ⟨out, ho, hr, hp⟩ := process_7_shape hrect hH hHb hWb
  refine ⟨out, ho, hr, ?_⟩
  intro r hr c hc
  obtain ⟨hlo, hhi⟩ := Image.sumsFit_at hrect hfit hr hc
  rw [hp r hr c hc, process_7_pixel_of_fits _ hlo hhi]

theorem process_7_high_contrast_witness :
    sample22.Rect 2 2 ∧ sample22.SumsFit ∧
    ∃ out, process_7 sample22 = some out ∧ out.Rect 2 2 ∧
      ∀ r < 2, ∀ c < 2, out.at r c =
        if Int.tdiv ((sample22.at r c).red + (sample22.at r c).green +
            (sample22.at r c).blue) 3 ≥ 127
        then ⟨255, 255, 255⟩ else ⟨0, 0, 0⟩ :=
  ⟨by decide, by decide,
    process_7_high_contrast sample22 2 2 (by decide) (by decide) (by decide) (by decide)
      (by decide)⟩

/-- C15 as stated fails: for the pixel `(2^30, 2^30, 2^30)` the sum `r + g + b` is at least
550, and `process_10` returns black: the sum it computes has wrapped to a negative
number; and for `huge_row`, one row of `2^31` pixels, `process_10` returns no image. -/
theorem process_10_overflow :
    overflow_image.Rect 1 1 ∧
    (overflow_image.at 0 0).red + (overflow_image.at 0 0).green +
      (overflow_image.at 0 0).blue ≥ 550 ∧
    process_10 overflow_image = some [[⟨0, 0, 0⟩]] ∧
    huge_row.Rect 1 2147483648 ∧ process_10 huge_row = none :=
  ⟨by decide, by decide, by decide, huge_row_rect, process_10_none (Or.inr huge_row_width)⟩

/-- C15, amended: for a rectangular image of `H ≥ 1` rows and `W` columns, both below
`2^31`, in which the sum of the channels of every pixel fits a 32-bit `int`, the pixel of
`process_10` at every position is, for the input pixel `(r, g, b)` there: white if
`r + g + b ≥ 550`; else black if `r + g + b ≤ 150`; else red if `r` is the maximum; else
green if `g` is the maximum; else blue.  Blue is produced only when `b` is strictly greater
than `r` and `g`. -/
theorem process_10_posterize (img : Image) (H W : Nat) (hrect : img.Rect H W) (hH : 0 < H)
    (hHb : H < 2147483648) (hWb : W < 2147483648) (hfit : img.SumsFit) :
    ∃ out, process_10 img = some out ∧ out.Rect H W ∧
    (∀ r < H, ∀ c < W, out.at r c =
      if (img.at r c).red + (img.at r c).green + (img.at r c).blue ≥ 550 then ⟨255, 255, 255⟩
      else if (img.at r c).red + (img.at r c).green + (img.at r c).blue ≤ 150 then ⟨0, 0, 0⟩
      else if (img.at r c).red = max (img.at r c).red (max (img.at r c).green (img.at r c).blue)
        then ⟨255, 0, 0⟩
      else if (img.at r c).green =
          max (img.at r c).red (max (img.at r c).green (img.at r c).blue)
        then ⟨0, 255, 0⟩
      else ⟨0, 0, 255⟩) ∧
    (∀ r < H, ∀ c < W, out.at r c = ⟨0, 0, 255⟩ →
      (img.at r c).red < (img.at r c).blue ∧ (img.at r c).green < (img.at r c).blue) := by
  obtain ⟨out, ho, hr, hp⟩ := process_10_shape hrect hH hHb hWb
  have hpx : ∀ r < H, ∀ c < W, out.at r c =
      if (img.at r c).red + (img.at r c).green + (img.at r c).blue ≥ 550 then ⟨255, 255, 255⟩
      else if (img.at r c).red + (img.at r c).green + (img.at r c).blue ≤ 150 then ⟨0, 0, 0⟩
      else if (img.at r c).red = max (img.at r c).red (max (img.at r c).green (img.at r c).blue)
        then ⟨255, 0, 0⟩
      else if (img.at r c).green =
          max (img.at r c).red (max (img.at r c).green (img.at r c).blue)
        then ⟨0, 255, 0⟩
      else ⟨0, 0, 255⟩ := by
    intro r hr c hc
    obtain ⟨hlo, hhi⟩ := Image.sumsFit_at hrect hfit hr hc
    rw [hp r hr c hc, process_10_pixel_of_fits _ hlo hhi]
  refine ⟨out, ho, hr, hpx, ?_⟩
  intro r hr c hc hblue
  rw [hpx r hr c hc] at hblue
  split_ifs at hblue with h1 h2 h3 h4
  · exact absurd hblue (by decide)
  · exact absurd hblue (by decide)
  · exact absurd hblue (by decide)
  · exact absurd hblue (by decide)
  · omega

theorem process_10_posterize_witness :
    sample22.Rect 2 2 ∧ sample22.SumsFit ∧
    process_10 sample22 = some [[⟨0, 0, 0⟩, ⟨255, 255, 255⟩], [⟨255, 0, 0⟩, ⟨255, 0, 0⟩]] ∧
    ∃ out, process_10 sample22 = some out ∧ out.Rect 2 2 ∧
    (∀ r < 2, ∀ c < 2, out.at r c =
      if (sample22.at r c).red + (sample22.at r c).green + (sample22.at r c).blue ≥ 550
        then ⟨255, 255, 255⟩
      else if (sample22.at r c).red + (sample22.at r c).green + (sample22.at r c).blue ≤ 150
        then ⟨0, 0, 0⟩
      else if (sample22.at r c).red =
          max (sample22.at r c).red (max (sample22.at r c).green (sample22.at r c).blue)
        then ⟨255, 0, 0⟩
      else if (sample22.at r c).green =
          max (sample22.at r c).red (max (sample22.at r c).green (sample22.at r c).blue)
        then ⟨0, 255, 0⟩
      else ⟨0, 0, 255⟩) ∧
    (∀ r < 2, ∀ c < 2, out.at r c = ⟨0, 0, 255⟩ →
      (sample22.at r c).red < (sample22.at r c).blue ∧
      (sample22.at r c).green < (sample22.at r c).blue) :=
  ⟨by decide, by decide, by decide,
    process_10_posterize sample22 2 2 (by decide) (by decide) (by decide) (by decide)
      (by decide)⟩

/-! ## Lighten and darken at the factors 0 and 1 -/

theorem exactEnv_sound : exactEnv.Sound := by
  refine ⟨fun n _ _ => rfl, fun n _ => ?_⟩
  show ((Nat.sqrt (Int.toNat (Int.floor (((n * n : Nat) : ℚ)))) : Nat) : ℚ) = (n : ℚ)
  rw [Int.floor_natCast, Int.toNat_ofNat, Nat.sqrt_eq]

theorem truncate_intCast (n : Int) : truncate (n : ℚ) = n := by
  simp [truncate]

/-- The conversion to `int` is the truncation whenever the truncated value is an `int`. -/
theorem double_to_int_of_fits (q : ℚ) (hlo : -2147483648 ≤ truncate q)
    (hhi : truncate q ≤ 2147483647) : double_to_int q = truncate q := by
  unfold double_to_int
  rw [if_pos ⟨hlo, hhi⟩]

theorem double_to_int_intCast (n : Int) (hlo : -2147483648 ≤ n) (hhi : n ≤ 2147483647) :
    double_to_int (n : ℚ) = n := by
  rw [double_to_int_of_fits _ (by rw [truncate_intCast]; exact hlo)
    (by rw [truncate_intCast]; exact hhi), truncate_intCast]

/-- The three branches of the body of `process_2` for a pixel with channels in `[0, 255]`:
no `int` operation wraps, and the tests on the `double` `avg` are tests on the integer
average. -/
theorem process_2_pixel_cases (env : FloatEnv) (f : ℚ) (p : Pixel)
    (hr : (0 ≤ p.red ∧ p.red ≤ 255) ∧ (0 ≤ p.green ∧ p.green ≤ 255) ∧
      (0 ≤ p.blue ∧ p.blue ≤ 255)) :
    (170 ≤ Int.tdiv (p.red + p.green + p.blue) 3 → process_2_pixel env f p =
      ⟨double_to_int (env.rnd (255 - env.rnd (((255 - p.red : Int) : ℚ) * f))),
        double_to_int (env.rnd (255 - env.rnd (((255 - p.green : Int) : ℚ) * f))),
        double_to_int (env.rnd (255 - env.rnd (((255 - p.blue : Int) : ℚ) * f)))⟩) ∧
    (Int.tdiv (p.red + p.green + p.blue) 3 < 90 → process_2_pixel env f p =
      ⟨double_to_int (env.rnd ((p.red : ℚ) * f)), double_to_int (env.rnd ((p.green : ℚ) * f)),
        double_to_int (env.rnd ((p.blue : ℚ) * f))⟩) ∧
    (90 ≤ Int.tdiv (p.red + p.green + p.blue) 3 → Int.tdiv (p.red + p.green + p.blue) 3 < 170 →
      process_2_pixel env f p = p) := by
  obtain ⟨⟨r0, r1⟩, ⟨g0, g1⟩, ⟨b0, b1⟩⟩ := hr
  have hsum : wrap32 (wrap32 (p.red + p.green) + p.blue) = p.red + p.green + p.blue :=
    wrap32_sum_of_fits (by omega) (by omega)
  have wr : wrap32 (255 - p.red) = 255 - p.red := wrap32_of_fits (by omega) (by omega)
  have wg : wrap32 (255 - p.green) = 255 - p.green := wrap32_of_fits (by omega) (by omega)
  have wb : wrap32 (255 - p.blue) = 255 - p.blue := wrap32_of_fits (by omega) (by omega)
  simp only [process_2_pixel, hsum, wr, wg, wb]
  generalize Int.tdiv (p.red + p.green + p.blue) 3 = avg
  refine ⟨?_, ?_, ?_⟩
  · intro h
    have hq : ((avg : Int) : ℚ) ≥ 170 := by exact_mod_cast h
    rw [if_pos hq]
  · intro h
    have hq1 : ¬ ((avg : Int) : ℚ) ≥ 170 := by
      intro hc
      have : (170 : Int) ≤ avg := by exact_mod_cast hc
      omega
    have hq2 : ((avg : Int) : ℚ) < 90 := by exact_mod_cast h
    rw [if_neg hq1, if_pos hq2]
  · intro h1 h2
    have hq1 : ¬ ((avg : Int) : ℚ) ≥ 170 := by
      intro hc
      have : (170 : Int) ≤ avg := by exact_mod_cast hc
      omega
    have hq2 : ¬ ((avg : Int) : ℚ) < 90 := by
      intro hc
      have : avg < (90 : Int) := by exact_mod_cast hc
      omega
    rw [if_neg hq1, if_neg hq2]

/-- C18 as stated fails: for the dark pixel `(1, 1, 1)` and the factor `3000000000` the value
`c × f` truncated is `3000000000`, which is no `int`: the channel stored is `-2^31`; and for
`huge_row`, one row of `2^31` pixels, `process_2` returns no image. -/
theorem process_2_out_of_range :
    dark_pixel.Rect 1 1 ∧ dark_pixel.InRange ∧
    Int.tdiv ((dark_pixel.at 0 0).red + (dark_pixel.at 0 0).green +
      (dark_pixel.at 0 0).blue) 3 < 90 ∧
    truncate (((dark_pixel.at 0 0).red : ℚ) * 3000000000) = 3000000000 ∧
    (∃ out, process_2 exactEnv dark_pixel 3000000000 = some out ∧
      (out.at 0 0).red = -2147483648 ∧
      (out.at 0 0).red ≠ truncate (((dark_pixel.at 0 0).red : ℚ) * 3000000000)) ∧
    huge_row.Rect 1 2147483648 ∧ process_2 exactEnv huge_row 1 = none := by
  have hp : dark_pixel.at 0 0 = ⟨1, 1, 1⟩ := by decide
  have hq : ((1 : Int) : ℚ) * 3000000000 = ((3000000000 : Int) : ℚ) := by norm_num
  have ht : truncate (((dark_pixel.at 0 0).red : ℚ) * 3000000000) = 3000000000 := by
    rw [hp, hq, truncate_intCast]
  have hd : double_to_int ((3000000000 : Int) : ℚ) = -2147483648 := by
    unfold double_to_int
    rw [truncate_intCast]
    decide
  obtain ⟨out, ho, -, hpx⟩ := process_2_shape exactEnv 3000000000 (by decide : dark_pixel.Rect 1 1)
    (by decide) (by decide) (by decide)
  have hred : (out.at 0 0).red = -2147483648 := by
    rw [hpx 0 (by decide) 0 (by decide), hp,
      (process_2_pixel_cases exactEnv 3000000000 ⟨1, 1, 1⟩ (by decide)).2.1 (by decide)]
    show double_to_int (((1 : Int) : ℚ) * 3000000000) = -2147483648
    rw [hq, hd]
  refine ⟨by decide, by decide, by decide, ht, ⟨out, ho, hred, ?_⟩, huge_row_rect,
    process_2_none exactEnv 1 (Or.inr huge_row_width)⟩
  rw [hred, ht]
  decide

/-- C18, amended: for a rectangular image of `H ≥ 1` rows and `W` columns, both below
`2^31`, with channels in `[0, 255]`, every floating-point environment and every factor `f`,
`process_2` returns an image of the same dimensions; with `avg = (r + g + b) / 3`,
truncated, for the input pixel: if `avg ≥ 170` each output channel is the `double`
`255 - (255 - c) * f` converted to `int`; if `avg < 90` it is the `double` `c * f` converted
to `int`; if `90 ≤ avg < 170` the output pixel is the input pixel.  The conversion is the
truncation toward zero whenever the truncated value is in the range of `int`. -/
theorem process_2_clarendon (env : FloatEnv) (f : ℚ) (img : Image) (H W : Nat)
    (hrect : img.Rect H W) (hH : 0 < H) (hHb : H < 2147483648) (hWb : W < 2147483648)
    (hrange : img.InRange) :
    (∃ out, process_2 env img f = some out ∧ out.Rect H W ∧
      ∀ r < H, ∀ c < W,
        (170 ≤ Int.tdiv ((img.at r c).red + (img.at r c).green + (img.at r c).blue) 3 →
          out.at r c =
            ⟨double_to_int (env.rnd (255 - env.rnd (((255 - (img.at r c).red : Int) : ℚ) * f))),
              double_to_int
                (env.rnd (255 - env.rnd (((255 - (img.at r c).green : Int) : ℚ) * f))),
              double_to_int
                (env.rnd (255 - env.rnd (((255 - (img.at r c).blue : Int) : ℚ) * f)))⟩) ∧
        (Int.tdiv ((img.at r c).red + (img.at r c).green + (img.at r c).blue) 3 < 90 →
          out.at r c =
            ⟨double_to_int (env.rnd (((img.at r c).red : ℚ) * f)),
              double_to_int (env.rnd (((img.at r c).green : ℚ) * f)),
              double_to_int (env.rnd (((img.at r c).blue : ℚ) * f))⟩) ∧
        (90 ≤ Int.tdiv ((img.at r c).red + (img.at r c).green + (img.at r c).blue) 3 →
          Int.tdiv ((img.at r c).red + (img.at r c).green + (img.at r c).blue) 3 < 170 →
          out.at r c = img.at r c)) ∧
    (∀ q : ℚ, -2147483648 ≤ truncate q → truncate q ≤ 2147483647 →
      double_to_int q = truncate q) := by
  obtain ⟨out, ho, hr, hp⟩ := process_2_shape env f hrect hH hHb hWb
  refine ⟨⟨out, ho, hr, ?_⟩, double_to_int_of_fits⟩
  intro r hr c hc
  rw [hp r hr c hc]
  exact process_2_pixel_cases env f _ (Image.inRange_at hrect hrange hr hc)

theorem process_2_clarendon_witness :
    sample22.Rect 2 2 ∧ sample22.InRange ∧
    ∃ out, process_2 exactEnv sample22 (1 / 2) = some out ∧ out.Rect 2 2 ∧
      ∀ r < 2, ∀ c < 2,
        (170 ≤ Int.tdiv ((sample22.at r c).red + (sample22.at r c).green +
            (sample22.at r c).blue) 3 →
          out.at r c =
            ⟨double_to_int (exactEnv.rnd
                (255 - exactEnv.rnd (((255 - (sample22.at r c).red : Int) : ℚ) * (1 / 2)))),
              double_to_int (exactEnv.rnd
                (255 - exactEnv.rnd (((255 - (sample22.at r c).green : Int) : ℚ) * (1 / 2)))),
              double_to_int (exactEnv.rnd
                (255 - exactEnv.rnd (((255 - (sample22.at r c).blue : Int) : ℚ) * (1 / 2))))⟩) ∧
        (Int.tdiv ((sample22.at r c).red + (sample22.at r c).green +
            (sample22.at r c).blue) 3 < 90 →
          out.at r c =
            ⟨double_to_int (exactEnv.rnd (((sample22.at r c).red : ℚ) * (1 / 2))),
              double_to_int (exactEnv.rnd (((sample22.at r c).green : ℚ) * (1 / 2))),
              double_to_int (exactEnv.rnd (((sample22.at r c).blue : ℚ) * (1 / 2)))⟩) ∧
        (90 ≤ Int.tdiv ((sample22.at r c).red + (sample22.at r c).green +
            (sample22.at r c).blue) 3 →
          Int.tdiv ((sample22.at r c).red + (sample22.at r c).green +
            (sample22.at r c).blue) 3 < 170 →
          out.at r c = sample22.at r c) :=
  ⟨by decide, by decide,
    (process_2_clarendon exactEnv (1 / 2) sample22 2 2 (by decide) (by decide) (by decide)
      (by decide) (by decide)).1⟩

/-! ## The selector and the vignette -/

/-- With a selector outside `1..10` no branch assigns `new_image`: the empty vector is
returned, whatever the image is. -/
theorem perform_image_processing_out_of_range (env : FloatEnv) (image : Image)
    (selection : Int) (cin : Inputs) (h : selection < 1 ∨ 10 < selection) :
    perform_image_processing env image selection cin = some [] := by
  have h1 : ¬ selection = 1 := by omega
  have h2 : ¬ selection = 2 := by omega
  have h3 : ¬ selection = 3 := by omega
  have h4 : ¬ selection = 4 := by omega
  have h5 : ¬ selection = 5 := by omega
  have h6 : ¬ selection = 6 := by omega
  have h7 : ¬ selection = 7 := by omega
  have h8 : ¬ selection = 8 := by omega
  have h9 : ¬ selection = 9 := by omega
  have h10 : ¬ selection = 10 := by omega
  unfold perform_image_processing
  simp only [h1, h2, h3, h4, h5, h6, h7, h8, h9, h10, if_false]

/-- C19 as stated fails: for the 2 by 2 sample image and the selectors 11 and 0,
`perform_image_processing` returns the empty vector, not the image. -/
theorem perform_image_processing_invalid :
    sample22.Rect 2 2 ∧
    perform_image_processing exactEnv sample22 11 sample_inputs = some [] ∧
    perform_image_processing exactEnv sample22 0 sample_inputs = some [] ∧
    perform_image_processing exactEnv sample22 11 sample_inputs ≠ some sample22 := by
  decide

/-- C19, amended: `perform_image_processing` with a selector outside `1..10` returns the
empty vector; `main` calls it only with a selector in `1..10`: on any other selection, the
first or the one read after selection 0, it keeps `modified_image` as it is. -/
theorem invalid_selection_keeps_image (env : FloatEnv) (st : MainState) (image read : Image)
    (selection second : Int) (cin : Inputs) (h : selection < 1 ∨ 10 < selection) :
    perform_image_processing env image selection cin = some [] ∧
    (selection ≠ 0 → main_select env st selection read second cin = some st) ∧
    (∃ st', main_select env st 0 read selection cin = some st' ∧
      st'.modified_image = st.modified_image) := by
  refine ⟨perform_image_processing_out_of_range env image selection cin h, ?_, ?_⟩
  · intro h0
    unfold main_select
    rw [if_neg h0, if_neg (by omega)]
  · refine ⟨{ image := read, modified_image := st.modified_image }, ?_, rfl⟩
    unfold main_select
    rw [if_pos rfl, if_neg (by omega)]

theorem invalid_selection_keeps_image_witness :
    perform_image_processing exactEnv sample22 11 sample_inputs = some [] ∧
    ((11 : Int) ≠ 0 → main_select exactEnv { image := sample23, modified_image := sample22 } 11
      sample23 3 sample_inputs = some { image := sample23, modified_image := sample22 }) ∧
    (∃ st', main_select exactEnv { image := sample23, modified_image := sample22 } 0
        sample23 11 sample_inputs = some st' ∧
      st'.modified_image = sample22) :=
  invalid_selection_keeps_image exactEnv { image := sample23, modified_image := sample22 }
    sample22 sample23 11 3 sample_inputs (by decide)

/-- The pixel `(100,100,100)` at row 0, column 0 of a 1 by 4 image: the distance to the
centre `(0, 2)` is 2, the scaling factor `(1 - 2) / 1 = -1`, every channel `-100`. -/
theorem process_1_pixel_wide (env : FloatEnv) (hs : env.Sound) :
    process_1_pixel env ((1 : Nat) : Int) ((4 : Nat) : Int) 0 0 ⟨100, 100, 100⟩ =
      ⟨-100, -100, -100⟩ := by
  have hdr : wrap32 (((0 : Nat) : Int) - Int.tdiv ((1 : Nat) : Int) 2) = 0 := by decide
  have hdc : wrap32 (((0 : Nat) : Int) - Int.tdiv ((4 : Nat) : Int) 2) = -2 := by decide
  have hsub : wrap32 (((1 : Nat) : Int) - 2) = -1 := by decide
  have q0 : ((0 : Int) : ℚ) * ((0 : Int) : ℚ) = ((0 : Int) : ℚ) := by norm_num
  have q4 : ((-2 : Int) : ℚ) * ((-2 : Int) : ℚ) = ((4 : Int) : ℚ) := by norm_num
  have qs : ((0 : Int) : ℚ) + ((4 : Int) : ℚ) = ((4 : Int) : ℚ) := by norm_num
  have qn : ((4 : Int) : ℚ) = ((2 * 2 : Nat) : ℚ) := by norm_num
  have q2 : ((2 : Nat) : ℚ) = ((2 : Int) : ℚ) := by norm_num
  have qf : ((-1 : Int) : ℚ) / ((((1 : Nat) : Int)) : ℚ) = ((-1 : Int) : ℚ) := by norm_num
  have qm : ((100 : Int) : ℚ) * ((-1 : Int) : ℚ) = ((-100 : Int) : ℚ) := by norm_num
  have r0 := hs.1 0 (by omega) (by omega)
  have r4 := hs.1 4 (by omega) (by omega)
  have rm1 := hs.1 (-1) (by omega) (by omega)
  have rm100 := hs.1 (-100) (by omega) (by omega)
  have s2 := hs.2 2 (by omega)
  simp only [process_1_pixel, hdr, hdc, q0, q4, r0, r4, qs]
  rw [qn, s2, q2, double_to_int_intCast _ (by omega) (by omega), hsub, qf, rm1, qm, rm100,
    double_to_int_intCast _ (by omega) (by omega)]

/-- In every floating-point environment that is exact on integers, the vignette of the
1 by 4 image `wide_row` has the pixel `(-100,-100,-100)` at row 0, column 0. -/
theorem vignette_wide_row_sound (env : FloatEnv) (hs : env.Sound) :
    ∃ out, process_1 env wide_row = some out ∧ out.at 0 0 = ⟨-100, -100, -100⟩ := by
  have hrect : wide_row.Rect 1 4 := by decide
  obtain ⟨out, ho, -, hp⟩ := process_1_shape env hrect (by decide) (by decide) (by decide)
  refine ⟨out, ho, ?_⟩
  rw [hp 0 (by decide) 0 (by decide)]
  exact process_1_pixel_wide env hs

/-- C20: for the 1 by 4 image `wide_row`, whose channels are all 100, the output pixel of
`process_1` at row 0, column 0 is `(-100,-100,-100)`: its channels are negative. -/
theorem process_1_wide_row :
    wide_row.Rect 1 4 ∧ wide_row.InRange ∧ wide_row.at 0 0 = ⟨100, 100, 100⟩ ∧
    ∃ out, process_1 exactEnv wide_row = some out ∧ out.at 0 0 = ⟨-100, -100, -100⟩ ∧
      (out.at 0 0).red < 0 := by
  obtain ⟨out, ho, hp⟩ := vignette_wide_row_sound exactEnv exactEnv_sound
  refine ⟨by decide, by decide, by decide, out, ho, hp, ?_⟩
  rw [hp]
  decide

/-! ## The rectangular invariant -/

/-- The branches of `process_5` test the value `angle`. -/
theorem process_5_branches (image : Image) (number : Int) :
    process_5 image number =
      if (process_5_angle number).tmod 90 ≠ 0 then some image
      else if (process_5_angle number).tmod 360 = 0 then some image
      else if (process_5_angle number).tmod 360 = 90 then process_4 image
      else if (process_5_angle number).tmod 360 = 180 then (process_4 image).bind process_4
      else ((process_4 image).bind process_4).bind process_4 := rfl

/-- C22 as stated fails: `N = 23860930` is a 32-bit integer, `N * 90 = 2147483700` wraps to
`-2147483596`, whose C++ remainder modulo 90 is `-76`: the first branch of `process_5` is
taken. -/
theorem process_5_angle_wraps :
    (-2147483648 : Int) ≤ 23860930 ∧ (23860930 : Int) ≤ 2147483647 ∧
    process_5_angle 23860930 = -2147483596 ∧
    Int.tmod (process_5_angle 23860930) 90 = -76 ∧
    Int.tmod (process_5_angle 23860930) 90 ≠ 0 := by
  decide

/-- C22, amended: for every integer `N` whose product `N * 90` is in the range of a 32-bit
`int`, the value `angle` of `process_5` is `N * 90`, `angle % 90` is 0, and `process_5`
goes on to the branches on `angle % 360`. -/
theorem process_5_angle_multiple (N : Int) (hlo : -2147483648 ≤ N * 90)
    (hhi : N * 90 ≤ 2147483647) :
    process_5_angle N = N * 90 ∧ Int.tmod (process_5_angle N) 90 = 0 ∧
    ∀ image : Image, process_5 image N =
      if (process_5_angle N).tmod 360 = 0 then some image
      else if (process_5_angle N).tmod 360 = 90 then process_4 image
      else if (process_5_angle N).tmod 360 = 180 then (process_4 image).bind process_4
      else ((process_4 image).bind process_4).bind process_4 := by
  have ha : process_5_angle N = N * 90 := wrap32_of_fits hlo (by omega)
  have hm : Int.tmod (process_5_angle N) 90 = 0 := by
    rw [ha]; exact Int.mul_tmod_left N 90
  refine ⟨ha, hm, fun image => ?_⟩
  rw [process_5_branches, if_neg (fun h => h hm)]

theorem process_5_angle_multiple_witness :
    (-2147483648 : Int) ≤ -23860929 * 90 ∧ (-23860929 : Int) * 90 ≤ 2147483647 ∧
    process_5_angle (-23860929) = -23860929 * 90 ∧
    Int.tmod (process_5_angle (-23860929)) 90 = 0 :=
  ⟨by decide, by decide, (process_5_angle_multiple (-23860929) (by decide) (by decide)).1,
    (process_5_angle_multiple (-23860929) (by decide) (by decide)).2.1⟩

/-! ## Round trip of channels outside `[0, 255]` -/

theorem wide_strip_rect : wide_strip.Rect 1 715827883 := by
  refine ⟨rfl, ?_⟩
  intro row hrow
  simp only [wide_strip, List.mem_singleton] at hrow
  rw [hrow, List.length_replicate]

/-- The header that `read_image` finds in the bytes written for `wide_strip`: the declared
size is not the size `read_image` expects. -/
theorem wide_strip_sizes :
    (read_header (write_image wide_strip)).file_size = -2147483590 ∧
    (read_header (write_image wide_strip)).expected_size = -2147483586 := by
  have hl : wide_strip.length = 1 := rfl
  have hw : wide_strip.width = 715827883 := Image.rect_width wide_strip_rect (by decide)
  have hab : array_bytes wide_strip = -2147483644 := by
    unfold array_bytes width_bytes padding_bytes width_pixels height_pixels
    rw [hw, hl]
    decide
  obtain ⟨f1, f2, f3, f4, f5⟩ := read_header_write_image wide_strip (by rw [hw]; decide)
    (by rw [hl]; decide)
  rw [hab] at f1
  rw [hw] at f3
  rw [hl] at f4
  refine ⟨by rw [f1]; decide, ?_⟩
  unfold Header.expected_size Header.padding Header.scanline_size
  rw [f2, f3, f4, f5]
  decide

/-- C23 as stated fails: for one row of 715827883 pixels the scan line has `2^31 + 1`
bytes, `write_image` and `read_image` compute different paddings from the wrapped value,
the size test of `read_image` fails and the empty buffer is returned. -/
theorem round_trip_wide_strip :
    wide_strip.Rect 1 715827883 ∧
    read_image (write_image wide_strip) = some [] ∧
    ¬ ∃ img : Image, read_image (write_image wide_strip) = some img ∧
      img.Rect 1 715827883 := by
  have hempty : read_image (write_image wide_strip) = some [] := by
    refine (read_image_shape _).1 ?_
    rw [wide_strip_sizes.1, wide_strip_sizes.2]
    decide
  refine ⟨wide_strip_rect, hempty, ?_⟩
  rintro ⟨img, h, hr⟩
  rw [hempty] at h
  injection h with h
  rw [← h] at hr
  exact absurd hr.1 (by decide)

/-- C23, amended: for a rectangular image of `H ≥ 1` rows and `W` columns with arbitrary
integer channels, whose height and file size `54 + stride W * H` are below `2^31`, decoding
the bytes that `write_image` emits returns an image of `H` rows and `W` columns in which
every channel is the input channel modulo 256, a value in `[0, 255]`. -/
theorem round_trip_mod_256 (img : Image) (H W : Nat) (hrect : img.Rect H W)
    (hH : 0 < H) (hdim : H < 2147483648) (hfit : 54 + stride W * H < 2147483648) :
    ∃ out : Image, read_image (write_image img) = some out ∧ out.Rect H W ∧
      out.InRange ∧
      ∀ i < H, ∀ j < W,
        (out.at i j).red = (img.at i j).red % 256 ∧
        (out.at i j).green = (img.at i j).green % 256 ∧
        (out.at i j).blue = (img.at i j).blue % 256 ∧
        (0 ≤ (out.at i j).red ∧ (out.at i j).red ≤ 255) ∧
        (0 ≤ (out.at i j).green ∧ (out.at i j).green ≤ 255) ∧
        (0 ≤ (out.at i j).blue ∧ (out.at i j).blue ≤ 255) := by
  obtain ⟨out, hread, hr, hpx⟩ := read_write_image_at img H W hrect hH hdim hfit
  have hall : ∀ i < H, ∀ j < W,
      (out.at i j).red = (img.at i j).red % 256 ∧
      (out.at i j).green = (img.at i j).green % 256 ∧
      (out.at i j).blue = (img.at i j).blue % 256 ∧
      (0 ≤ (out.at i j).red ∧ (out.at i j).red ≤ 255) ∧
      (0 ≤ (out.at i j).green ∧ (out.at i j).green ≤ 255) ∧
      (0 ≤ (out.at i j).blue ∧ (out.at i j).blue ≤ 255) := by
    intro i hi j hj
    rw [hpx i hi j hj]
    refine ⟨rfl, rfl, rfl, ⟨?_, ?_⟩, ⟨?_, ?_⟩, ⟨?_, ?_⟩⟩ <;> dsimp only <;> omega
  refine ⟨out, hread, hr, ?_, hall⟩
  intro row hrow p hp
  obtain ⟨i, hi, hrowi⟩ := List.getElem_of_mem hrow
  obtain ⟨j, hj, hpj⟩ := List.getElem_of_mem hp
  have hiH : i < H := by rw [← hr.1]; exact hi
  have hjW : j < W := by rw [← hr.2 row hrow]; exact hj
  have hat : out.at i j = p := by
    unfold Image.at
    rw [List.getD_eq_getElem _ _ hi, hrowi, List.getD_eq_getElem _ _ hj, hpj]
  obtain ⟨-, -, -, h1, h2, h3⟩ := hall i hiH j hjW
  rw [hat] at h1 h2 h3
  exact ⟨h1, h2, h3⟩

set_option maxRecDepth 100000 in
theorem round_trip_mod_256_witness :
    odd_channels.Rect 1 2 ∧ odd_channels.at 0 0 = ⟨-1, 256, 300⟩ ∧
    read_image (write_image odd_channels) = some [[⟨255, 0, 44⟩, ⟨232, 24, 255⟩]] ∧
    ∃ out : Image, read_image (write_image odd_channels) = some out ∧ out.Rect 1 2 ∧
      out.InRange ∧
      ∀ i < 1, ∀ j < 2,
        (out.at i j).red = (odd_channels.at i j).red % 256 ∧
        (out.at i j).green = (odd_channels.at i j).green % 256 ∧
        (out.at i j).blue = (odd_channels.at i j).blue % 256 ∧
        (0 ≤ (out.at i j).red ∧ (out.at i j).red ≤ 255) ∧
        (0 ≤ (out.at i j).green ∧ (out.at i j).green ≤ 255) ∧
        (0 ≤ (out.at i j).blue ∧ (out.at i j).blue ≤ 255) :=
  ⟨by decide, by decide, by decide,
    round_trip_mod_256 odd_channels 1 2 (by decide) (by decide) (by decide)
      (by decide)⟩

/-! ## Reading past the end of the stream -/

/-- A pixel read when the stream has failed, or at a position at or after the end of the
file: the three `get()` calls return `-1` and the stream has failed afterwards. -/
theorem read_pixel_eof (hd : Header) (i j : Nat) (st : ReadState)
    (hbad : st.stream.fail = true ∨ (0 ≤ st.pos ∧ st.stream.data.length ≤ st.pos.toNat)) :
    (read_pixel hd i j st).stream.fail = true ∧
    (read_pixel hd i j st).image = st.image.put i j ⟨-1, -1, -1⟩ := by
  obtain ⟨image, pos, ⟨d, p, f⟩⟩ := st
  simp only at hbad
  unfold read_pixel
  rcases hbad with hf | ⟨h0, hlen⟩
  · subst hf
    simp [FStream.seekg, FStream.get]
  · cases f
    · have hnone : d[pos.toNat]? = none := List.getElem?_eq_none hlen
      simp [FStream.seekg, FStream.get, not_lt.2 h0, hnone]
    · simp [FStream.seekg, FStream.get]

/-- The column loop of `read_image` on row `i` from such a state: every pixel of the row is
`(-1,-1,-1)`. -/
theorem read_cols_eof (hd : Header) (i h w : Nat) (st : ReadState)
    (hbad : st.stream.fail = true ∨ (0 ≤ st.pos ∧ st.stream.data.length ≤ st.pos.toNat))
    (hrect : st.image.Rect h w) (hi : i < h) (n : Nat) :
    n ≤ w →
    (0 < n → (forLoop n (fun j st => read_pixel hd i j st) st).stream.fail = true) ∧
    (forLoop n (fun j st => read_pixel hd i j st) st).image.Rect h w ∧
    (∀ j < n, (forLoop n (fun j st => read_pixel hd i j st) st).image.at i j =
        ⟨-1, -1, -1⟩) ∧
    (∀ i' j', i' ≠ i →
      (forLoop n (fun j st => read_pixel hd i j st) st).image.at i' j' = st.image.at i' j') := by
  induction n with
  | zero =>
    intro _
    exact ⟨fun h0 => absurd h0 (Nat.lt_irrefl 0), hrect,
      fun j hj => absurd hj (Nat.not_lt_zero _), fun _ _ _ => rfl⟩
  | succ n ih =>
    intro hnw
    obtain ⟨hf, hr, hv, hu⟩ := ih (by omega)
    have hbad' : (forLoop n (fun j st => read_pixel hd i j st) st).stream.fail = true ∨
        (0 ≤ (forLoop n (fun j st => read_pixel hd i j st) st).pos ∧
          (forLoop n (fun j st => read_pixel hd i j st) st).stream.data.length ≤
            (forLoop n (fun j st => read_pixel hd i j st) st).pos.toNat) := by
      rcases Nat.eq_zero_or_pos n with h0 | hpos
      · subst h0; exact hbad
      · exact Or.inl (hf hpos)
    obtain ⟨hf', himg⟩ := read_pixel_eof hd i n _ hbad'
    rw [forLoop_succ]
    refine ⟨fun _ => hf', ?_, ?_, ?_⟩
    · rw [himg]; exact Image.put_rect hr _ _ _
    · intro j hj
      rw [himg, Image.at_put]
      by_cases hjn : j = n
      · subst hjn
        rw [if_pos ⟨rfl, rfl, by rw [hr.1]; exact hi, by rw [Image.rect_getD hr hi]; omega⟩]
      · rw [if_neg (fun hc => hjn hc.2.1)]
        exact hv j (by omega)
    · intro i' j' hne
      rw [himg, Image.at_put, if_neg (fun hc => hne hc.1)]
      exact hu i' j' hne

theorem FStream.seekgCur_fail (s : FStream) (off : Int) (h : s.fail = true) :
    (s.seekgCur off).fail = true := by
  unfold FStream.seekgCur
  rw [if_pos h]
  exact h

/-- The row loop body of `read_image` on row `i` from such a state, for a positive width. -/
theorem read_row_eof (hd : Header) (i h w : Nat) (st : ReadState)
    (hbad : st.stream.fail = true ∨ (0 ≤ st.pos ∧ st.stream.data.length ≤ st.pos.toNat))
    (hw : hd.width.toNat = w) (hpos : 0 < w) (hrect : st.image.Rect h w) (hi : i < h) :
    (read_row hd i st).stream.fail = true ∧
    (read_row hd i st).image.Rect h w ∧
    (∀ j < w, (read_row hd i st).image.at i j = ⟨-1, -1, -1⟩) ∧
    (∀ i' j', i' ≠ i → (read_row hd i st).image.at i' j' = st.image.at i' j') := by
  obtain ⟨hf, hr, hv, hu⟩ := read_cols_eof hd i h w st hbad hrect hi w (Nat.le_refl _)
  unfold read_row
  simp only [hw]
  exact ⟨FStream.seekgCur_fail _ _ (hf hpos), hr, hv, hu⟩

/-- The row loop of `read_image` from such a state, for a positive width: the stream has
failed at the end and every pixel of the rows it fills is `(-1,-1,-1)`. -/
theorem read_rows_eof (hd : Header) (h w : Nat) (hw : hd.width.toNat = w) (hpos : 0 < w)
    (n : Nat) :
    n ≤ h → ∀ (st : ReadState),
    (st.stream.fail = true ∨ (0 ≤ st.pos ∧ st.stream.data.length ≤ st.pos.toNat)) →
    st.image.Rect h w →
    (∀ i, n ≤ i → i < h → ∀ j < w, st.image.at i j = ⟨-1, -1, -1⟩) →
    (0 < n → (forLoopDown n (fun i st => read_row hd i st) st).stream.fail = true) ∧
    (forLoopDown n (fun i st => read_row hd i st) st).image.Rect h w ∧
    ∀ i < h, ∀ j < w,
      (forLoopDown n (fun i st => read_row hd i st) st).image.at i j = ⟨-1, -1, -1⟩ := by
  induction n with
  | zero =>
    intro _ st _ hrect hpx
    exact ⟨fun h0 => absurd h0 (Nat.lt_irrefl 0), hrect,
      fun i hi j hj => hpx i (Nat.zero_le _) hi j hj⟩
  | succ n ih =>
    intro hn st hbad hrect hpx
    rw [forLoopDown_succ]
    obtain ⟨hf, hr, hv, hu⟩ := read_row_eof hd n h w st hbad hw hpos hrect (by omega)
    obtain ⟨hf', hr', hv'⟩ := ih (by omega) _ (Or.inl hf) hr (by
      intro i hni hih j hj
      by_cases hin : i = n
      · subst hin
        exact hv j hj
      · rw [hu i j hin]
        exact hpx i (by omega) hih j hj)
    refine ⟨fun _ => ?_, hr', hv'⟩
    rcases Nat.eq_zero_or_pos n with h0 | hp
    · subst h0
      rw [forLoopDown_zero]
      exact hf
    · exact hf' hp

/-! ## Decoding inside the stream -/

/-- When the size test of `read_image` passes and the fields are non-negative, the image
returned is the one the loops have filled. -/
theorem read_image_of_accepted (file : List Byte)
    (hacc : (read_header file).file_size = (read_header file).expected_size)
    (hh : 0 ≤ (read_header file).height) (hw : 0 ≤ (read_header file).width) :
    read_image file = some (read_image_state file).image := by
  unfold read_image read_image_state
  simp only [hacc, ne_eq, not_true_eq_false, if_false]
  rw [if_neg (fun hc => by rcases hc with hc | hc <;> exact absurd hc (by omega))]

/-- The size `read_image` expects, when the size of header and pixel array is below
`2^31`: no `int` operation wraps. -/
theorem expected_size_of_fits (hd : Header) (h w k start : Nat)
    (hk : Int.tdiv hd.bits_per_pixel 8 = (k : Int))
    (hw : hd.width = (w : Int)) (hh : hd.height = (h : Int))
    (hst : hd.start = (start : Int))
    (hfit : start + h * (w * k + padOf (w * k)) < 2147483648) :
    hd.expected_size = ((start + h * (w * k + padOf (w * k)) : Nat) : Int) := by
  rcases Nat.eq_zero_or_pos h with h0 | hpos
  · subst h0
    simp only [Header.expected_size, hh, hst, Nat.cast_zero, mul_zero, Nat.zero_mul,
      Nat.add_zero]
    rw [wrap32_of_fits (x := 0) (by omega) (by omega), add_zero,
      wrap32_of_fits (by omega) (by omega)]
  · have hS : w * k + padOf (w * k) ≤ h * (w * k + padOf (w * k)) :=
      Nat.le_mul_of_pos_left _ hpos
    have hscan : hd.scanline_size = ((w * k : Nat) : Int) := by
      simp only [Header.scanline_size, hw, hk]
      rw [wrap32_of_fits] <;> push_cast <;> omega
    have hpad : hd.padding = ((padOf (w * k) : Nat) : Int) := by
      simp only [Header.padding, hscan]
      rw [Int.tmod_eq_emod (by omega) (by omega)]
      unfold padOf
      split_ifs <;> omega
    simp only [Header.expected_size, hscan, hpad, hh, hst]
    have e : ((w * k : Nat) : Int) + ((padOf (w * k) : Nat) : Int) =
        ((w * k + padOf (w * k) : Nat) : Int) := by push_cast; rfl
    have e2 : ((w * k + padOf (w * k) : Nat) : Int) * (h : Int) =
        ((h * (w * k + padOf (w * k)) : Nat) : Int) := by push_cast; ring
    rw [e, wrap32_of_fits (x := ((w * k + padOf (w * k) : Nat) : Int)) (by omega) (by omega),
      e2, wrap32_of_fits (x := ((h * (w * k + padOf (w * k)) : Nat) : Int)) (by omega)
        (by omega),
      wrap32_of_fits (by omega) (by omega)]
    push_cast
    rfl

/-- The row loop of `read_image`, when the pixel array lies inside the file and its end
offset is below `2^31`: the stream has not failed at the end. -/
theorem read_rows_stream_ok (hd : Header) (file : List Byte) (h w k pad start : Nat)
    (hk : Int.tdiv hd.bits_per_pixel 8 = (k : Int)) (hk3 : 3 ≤ k)
    (hw : hd.width.toNat = w) (hpad : hd.padding = (pad : Int))
    (hlen : start + h * (w * k + pad) ≤ file.length)
    (hfit : start + h * (w * k + pad) < 2147483648) (n : Nat) :
    n ≤ h → ∀ (st : ReadState) (q : Nat),
    st.stream = { data := file, pos := q, fail := false } →
    st.pos = ((start + (h - n) * (w * k + pad) : Nat) : Int) →
    st.image.Rect h w →
    ∃ q', (forLoopDown n (fun i st => read_row hd i st) st).stream =
      { data := file, pos := q', fail := false } := by
  induction n with
  | zero =>
    intro _ st q hs _ _
    exact ⟨q, hs⟩
  | succ n ih =>
    intro hn st q hs hp hrect
    rw [forLoopDown_succ]
    have e1 : h - (n + 1) = h - 1 - n := by omega
    have e2 : (h - n) * (w * k + pad) = (h - 1 - n) * (w * k + pad) + (w * k + pad) := by
      have : h - n = (h - 1 - n) + 1 := by omega
      rw [this, Nat.succ_mul]
    have e3 : (h - n) * (w * k + pad) ≤ h * (w * k + pad) :=
      Nat.mul_le_mul_right _ (by omega)
    rw [e1] at hp
    obtain ⟨⟨q', hs'⟩, hp', hr', -, -⟩ :=
      read_row_ok hd file n h w k pad (start + (h - 1 - n) * (w * k + pad)) st q hs hp hk hk3
        hw hpad hrect (by omega) (by omega) (by omega)
    refine ih (by omega) _ q' hs' ?_ hr'
    rw [hp', e2, Nat.add_assoc]

/-- The padding `read_image` computes for a scan line of `w * k` bytes below `2^31`. -/
theorem padding_of_fits (hd : Header) (w k : Nat)
    (hk : Int.tdiv hd.bits_per_pixel 8 = (k : Int)) (hw : hd.width = (w : Int))
    (hfit : w * k < 2147483648) : hd.padding = ((padOf (w * k) : Nat) : Int) := by
  have hscan : hd.scanline_size = ((w * k : Nat) : Int) := by
    simp only [Header.scanline_size, hw, hk]
    rw [wrap32_of_fits] <;> push_cast <;> omega
  simp only [Header.padding, hscan]
  rw [Int.tmod_eq_emod (by omega) (by omega)]
  unfold padOf
  split_ifs <;> omega

/-- C24 as stated fails: `tall_file` has 54 bytes, as its header declares, 24 bits per
pixel, width 1, height `2^30` and pixel-array offset 54; the size `read_image` expects is
`54 + 4 * 2^30 = 54` as a 32-bit `int`, so the stream is accepted. Its first pixel is read
at offset 54, where the stream has no byte: every `get()` returns `-1`, every decoded
channel is `-1` and the stream has failed. -/
theorem read_image_tall_file :
    (tall_file.length : Int) = (read_header tall_file).file_size ∧
    (read_header tall_file).bits_per_pixel = 24 ∧ (read_header tall_file).width = 1 ∧
    (read_header tall_file).height = 1073741824 ∧ (read_header tall_file).start = 54 ∧
    (read_header tall_file).file_size = (read_header tall_file).expected_size ∧
    tall_file[54]? = none ∧
    (read_image_state tall_file).stream.fail = true ∧
    ∃ img : Image, read_image tall_file = some img ∧ img.Rect 1073741824 1 ∧
      ∀ i < 1073741824, img.at i 0 = ⟨-1, -1, -1⟩ := by
  have hacc : (read_header tall_file).file_size = (read_header tall_file).expected_size := by
    decide
  have hh : (read_header tall_file).height.toNat = 1073741824 := by decide
  have hw : (read_header tall_file).width.toNat = 1 := by decide
  have hbad : (read_header tall_file).stream.fail = true ∨
      (0 ≤ (read_header tall_file).start ∧
        (read_header tall_file).stream.data.length ≤ (read_header tall_file).start.toNat) := by
    decide
  obtain ⟨hf, hr, hv⟩ := read_rows_eof (read_header tall_file) 1073741824 1 hw (by decide)
    1073741824 (Nat.le_refl _)
    { image := mkImage 1073741824 1, pos := (read_header tall_file).start,
      stream := (read_header tall_file).stream } hbad (mkImage_rect _ _)
    (fun i hi hi' => absurd hi (by omega))
  have hstate : read_image_state tall_file =
      forLoopDown 1073741824 (fun i st => read_row (read_header tall_file) i st)
        { image := mkImage 1073741824 1, pos := (read_header tall_file).start,
          stream := (read_header tall_file).stream } := by
    unfold read_image_state
    simp only [hh, hw]
  refine ⟨by decide, by decide, by decide, by decide, by decide, hacc, by decide, ?_, ?_⟩
  · rw [hstate]
    exact hf (by decide)
  · refine ⟨_, read_image_of_accepted tall_file hacc (by decide) (by decide), ?_, ?_⟩
    · rw [hstate]
      exact hr
    · intro i hi
      rw [hstate]
      exact hv i hi 0 (by decide)

/-- The stream after the loops of `read_image`, when the pixel array lies inside the file
and its end offset is below `2^31`: it has not failed. -/
theorem read_image_state_ok (file : List Byte) (h w k start : Nat)
    (hk : Int.tdiv (read_header file).bits_per_pixel 8 = (k : Int)) (hk3 : 3 ≤ k)
    (hw : (read_header file).width = (w : Int)) (hh : (read_header file).height = (h : Int))
    (hst : (read_header file).start = (start : Int))
    (hlen : start + h * (w * k + padOf (w * k)) ≤ file.length)
    (hfit : start + h * (w * k + padOf (w * k)) < 2147483648) :
    (read_image_state file).stream.fail = false := by
  have h30 := length_of_bits_per_pixel file (nonneg_of_tdiv_eight hk hk3)
  have hhd := read_header_of_length file h30
  have hstream : (read_header file).stream = { data := file, pos := 30, fail := false } := by
    rw [hhd]
  have hwn : (read_header file).width.toNat = w := by rw [hw]; exact Int.toNat_ofNat w
  have hhn : (read_header file).height.toNat = h := by rw [hh]; exact Int.toNat_ofNat h
  unfold read_image_state
  simp only [hwn, hhn]
  rcases Nat.eq_zero_or_pos h with h0 | hpos
  · subst h0
    rw [forLoopDown_zero]
    simp only [hstream]
  · have hS : w * k + padOf (w * k) ≤ h * (w * k + padOf (w * k)) :=
      Nat.le_mul_of_pos_left _ hpos
    have hpad := padding_of_fits (read_header file) w k hk hw (by omega)
    obtain ⟨q', hq'⟩ := read_rows_stream_ok (read_header file) file h w k (padOf (w * k))
      start hk hk3 hwn hpad hlen hfit h (Nat.le_refl _)
      { image := mkImage h w, pos := (read_header file).start,
        stream := (read_header file).stream } 30 hstream
      (by simp only [hst, Nat.sub_self, Nat.zero_mul, Nat.add_zero])
      (mkImage_rect h w)
    rw [hq']

/-- C24, amended: for a stream with 24 or 32 bits per pixel (`k` = 3 or 4 bytes), width `w`
and height `h` non-negative, pixel-array offset `start ≥ 54`, actual length equal to its
declared file size, that `read_image` accepts, and whose size `start + h * stride` with
`stride = w * k + padding` is below `2^31`: `read_image` returns an `h` by `w` image, the
stream has not failed when its loops end, and the three bytes of every pixel `(i, j)` are
read at the offsets `o = start + (h - 1 - i) * stride + j * k`, `o + 1`, `o + 2`, which are
at least `start` and below the declared file size; every decoded channel is in
`[0, 255]`. -/
theorem read_image_in_bounds (file : List Byte) (h w k start : Nat)
    (hb : ((read_header file).bits_per_pixel = 24 ∧ k = 3) ∨
      ((read_header file).bits_per_pixel = 32 ∧ k = 4))
    (hw : (read_header file).width = (w : Int)) (hh : (read_header file).height = (h : Int))
    (hst : (read_header file).start = (start : Int)) (_h54 : 54 ≤ start)
    (hlen : (file.length : Int) = (read_header file).file_size)
    (hacc : (read_header file).file_size = (read_header file).expected_size)
    (hfit : start + h * (w * k + padOf (w * k)) < 2147483648) :
    ∃ img : Image, read_image file = some img ∧ img.Rect h w ∧
      (read_image_state file).stream.fail = false ∧
      ∀ i < h, ∀ j < w, ∃ o : Nat, ∃ b g r : Byte,
        o = start + (h - 1 - i) * (w * k + padOf (w * k)) + j * k ∧
        start ≤ o ∧ ((o + 2 : Nat) : Int) < (read_header file).file_size ∧
        file[o]? = some b ∧ file[o + 1]? = some g ∧ file[o + 2]? = some r ∧
        img.at i j = ⟨r.val, g.val, b.val⟩ ∧
        (0 ≤ (img.at i j).red ∧ (img.at i j).red ≤ 255) ∧
        (0 ≤ (img.at i j).green ∧ (img.at i j).green ≤ 255) ∧
        (0 ≤ (img.at i j).blue ∧ (img.at i j).blue ≤ 255) := by
  have hk : Int.tdiv (read_header file).bits_per_pixel 8 = (k : Int) := by
    rcases hb with ⟨h1, h2⟩ | ⟨h1, h2⟩ <;> rw [h1, h2] <;> decide
  have hk3 : 3 ≤ k := by rcases hb with ⟨-, h2⟩ | ⟨-, h2⟩ <;> omega
  have hexp := expected_size_of_fits (read_header file) h w k start hk hw hh hst hfit
  have hsize : (read_header file).file_size =
      ((start + h * (w * k + padOf (w * k)) : Nat) : Int) := by rw [hacc, hexp]
  have hlen' : file.length = start + h * (w * k + padOf (w * k)) := by
    rw [hsize] at hlen
    exact Int.ofNat.inj hlen
  obtain ⟨img, hread, hr, hpx⟩ := read_image_decodes file h w k start hk hk3 hw hh hst hsize
    (by omega)
  have hok := read_image_state_ok file h w k start hk hk3 hw hh hst (by omega) hfit
  refine ⟨img, hread, hr, hok, ?_⟩
  intro i hi j hj
  have e1 : (j + 1) * k ≤ w * k := Nat.mul_le_mul_right _ hj
  have e2 : (h - 1 - i + 1) * (w * k + padOf (w * k)) ≤ h * (w * k + padOf (w * k)) :=
    Nat.mul_le_mul_right _ (by omega)
  rw [Nat.succ_mul] at e1 e2
  have hin : start + (h - 1 - i) * (w * k + padOf (w * k)) + j * k + 2 < file.length := by
    omega
  have hb0 := (file.getD (start + (h - 1 - i) * (w * k + padOf (w * k)) + j * k) 0).isLt
  have hb1 := (file.getD (start + (h - 1 - i) * (w * k + padOf (w * k)) + j * k + 1) 0).isLt
  have hb2 := (file.getD (start + (h - 1 - i) * (w * k + padOf (w * k)) + j * k + 2) 0).isLt
  refine ⟨_, _, _, _, rfl, by omega, by rw [← hlen]; exact_mod_cast hin,
    getElem?_eq_some_getD file (by omega), getElem?_eq_some_getD file (by omega),
    getElem?_eq_some_getD file hin, ?_, ?_⟩
  · rw [hpx i hi j hj]
    rfl
  · rw [hpx i hi j hj]
    simp only [pixelAt, byteAt]
    omega

set_option maxRecDepth 100000 in
theorem read_image_in_bounds_witness :
    (read_header (write_image sample23)).bits_per_pixel = 24 ∧
    ((write_image sample23).length : Int) = (read_header (write_image sample23)).file_size ∧
    (read_header (write_image sample23)).file_size =
      (read_header (write_image sample23)).expected_size ∧
    ∃ img : Image, read_image (write_image sample23) = some img ∧ img.Rect 2 3 ∧
      (read_image_state (write_image sample23)).stream.fail = false ∧
      ∀ i < 2, ∀ j < 3, ∃ o : Nat, ∃ b g r : Byte,
        o = 54 + (2 - 1 - i) * (3 * 3 + padOf (3 * 3)) + j * 3 ∧
        54 ≤ o ∧ ((o + 2 : Nat) : Int) < (read_header (write_image sample23)).file_size ∧
        (write_image sample23)[o]? = some b ∧ (write_image sample23)[o + 1]? = some g ∧
        (write_image sample23)[o + 2]? = some r ∧
        img.at i j = ⟨r.val, g.val, b.val⟩ ∧
        (0 ≤ (img.at i j).red ∧ (img.at i j).red ≤ 255) ∧
        (0 ≤ (img.at i j).green ∧ (img.at i j).green ≤ 255) ∧
        (0 ≤ (img.at i j).blue ∧ (img.at i j).blue ≤ 255) :=
  ⟨by decide, by decide, by decide,
    read_image_in_bounds (write_image sample23) 2 3 3 54 (Or.inl ⟨by decide, rfl⟩) (by decide)
      (by decide) (by decide) (by decide) (by decide) (by decide) (by decide)⟩

/-! ## Composition of enlargements -/

/-- C25 as stated fails: for the 4 by 1 image `four_rows` and the scales `a = c = 1`,
`b = 2^29`, `d = 2`, the first enlargement builds a vector of `4 * 2^29 = -2^31` rows and
returns nothing, while the enlargement by `b * d = 2^30` computes the height
`4 * 2^30 = 0` and returns the empty image. -/
theorem process_6_twice_overflow :
    four_rows.Rect 4 1 ∧
    process_6 four_rows 1 536870912 = none ∧
    process_6 four_rows (1 * 1) (536870912 * 2) = some [] ∧
    (process_6 four_rows 1 536870912).bind (fun mid => process_6 mid 1 2) ≠
      process_6 four_rows (1 * 1) (536870912 * 2) := by
  decide

/-- C25, amended: for a rectangular image of `H ≥ 1` rows and `W` columns and positive
scales `a, b, c, d` with `H * b * d` and `W * a * c` below `2^31`, enlarging by `(a, b)`
and then by `(c, d)` returns the image that enlarging by `(a * c, b * d)` returns; and
enlarging by `(1, 1)` returns the image. -/
theorem process_6_compose (img : Image) (H W : Nat) (a b c d : Nat)
    (hrect : img.Rect H W) (hH : 0 < H) (ha : 0 < a) (hb : 0 < b) (hc : 0 < c) (hd : 0 < d)
    (hfH : H * b * d < 2147483648) (hfW : W * a * c < 2147483648) :
    (∃ out, process_6 img ((a * c : Nat) : Int) ((b * d : Nat) : Int) = some out ∧
      (process_6 img (a : Int) (b : Int)).bind
        (fun mid => process_6 mid (c : Int) (d : Int)) = some out) ∧
    process_6 img 1 1 = some img := by
  have hHb : H * b ≤ H * b * d := Nat.le_mul_of_pos_right _ hd
  have hWa : W * a ≤ W * a * c := Nat.le_mul_of_pos_right _ hc
  have hH1 : H ≤ H * b := Nat.le_mul_of_pos_right _ hb
  have hW1 : W ≤ W * a := Nat.le_mul_of_pos_right _ ha
  obtain ⟨mid, hmid, rmid, pmid⟩ := process_6_shape hrect hH a b (by omega) (by omega)
  obtain ⟨fin, hfin, rfin, pfin⟩ := process_6_shape rmid (by omega) c d hfH hfW
  obtain ⟨out, hout, rout, pout⟩ := process_6_shape hrect hH (a * c) (b * d)
    (by rw [← Nat.mul_assoc]; exact hfH) (by rw [← Nat.mul_assoc]; exact hfW)
  obtain ⟨one, hone, rone, pone⟩ := process_6_shape hrect hH 1 1 (by omega) (by omega)
  rw [Nat.mul_one, Nat.mul_one] at rone pone
  rw [← Nat.mul_assoc, ← Nat.mul_assoc] at rout pout
  refine ⟨⟨out, hout, ?_⟩, ?_⟩
  · rw [hmid, Option.some_bind, hfin]
    refine congrArg some (Image.ext_at rfin rout ?_)
    intro r hr col hcol
    have hr1 : r / d < H * b := (Nat.div_lt_iff_lt_mul hd).2 hr
    have hc1 : col / c < W * a := (Nat.div_lt_iff_lt_mul hc).2 hcol
    rw [pfin r hr col hcol, pmid _ hr1 _ hc1, pout r hr col hcol, Nat.div_div_eq_div_mul,
      Nat.div_div_eq_div_mul, Nat.mul_comm d b, Nat.mul_comm c a]
  · have e : process_6 img 1 1 = some one := hone
    rw [e]
    refine congrArg some (Image.ext_at rone hrect ?_)
    intro r hr col hcol
    rw [pone r hr col hcol, Nat.div_one, Nat.div_one]

theorem process_6_compose_witness :
    sample22.Rect 2 2 ∧
    (∃ out, process_6 sample22 ((2 * 3 : Nat) : Int) ((3 * 2 : Nat) : Int) = some out ∧
      (process_6 sample22 ((2 : Nat) : Int) ((3 : Nat) : Int)).bind
        (fun mid => process_6 mid ((3 : Nat) : Int) ((2 : Nat) : Int)) = some out) ∧
    process_6 sample22 1 1 = some sample22 :=
  ⟨by decide, process_6_compose sample22 2 2 2 3 3 2 (by decide) (by decide) (by decide)
    (by decide) (by decide) (by decide) (by decide) (by decide)⟩

end ImageProcessor
